import Mathlib

/-!
Verification of the `july` calendar-heatmap helpers.

The development shallowly embeds `src/july/helpers.py`:
dates are (year, month, day) integer triples, the ISO-calendar
computation mirrors CPython's `datetime.date.isocalendar`, and the
grid built by `date_grid` is a list of rows whose cells are `Option`
values (`none` standing for the NaN / empty-object sentinel of the
numpy arrays).  Fallible operations return `Except`.
-/

namespace July

/-- Calendar dates as (year, month, day) integer triples, mirroring
`datetime.date` objects handed to the helpers. -/
structure Date where
  year : Int
  month : Int
  day : Int
deriving DecidableEq, Repr

/-- Gregorian leap-year test, as in CPython `datetime._is_leap`. -/
def isLeapB (year : Int) : Bool :=
  year % 4 == 0 && (year % 100 != 0 || year % 400 == 0)

/-- Number of days in a month, as in CPython `datetime._days_in_month`. -/
def daysInMonth (year month : Int) : Int :=
  if month = 2 then (if isLeapB year then 29 else 28)
  else if month = 4 ∨ month = 6 ∨ month = 9 ∨ month = 11 then 30
  else 31

/-- CPython's `_DAYS_BEFORE_MONTH` table (non-leap cumulative days). -/
def daysBeforeMonthTable (month : Int) : Int :=
  if month = 1 then 0 else if month = 2 then 31 else if month = 3 then 59
  else if month = 4 then 90 else if month = 5 then 120 else if month = 6 then 151
  else if month = 7 then 181 else if month = 8 then 212 else if month = 9 then 243
  else if month = 10 then 273 else if month = 11 then 304 else 334

/-- Days in `year` preceding the first of `month`
(CPython `datetime._days_before_month`). -/
def daysBeforeMonth (year month : Int) : Int :=
  daysBeforeMonthTable month + (if 2 < month ∧ isLeapB year then 1 else 0)

/-- Days before January 1st of `year`
(CPython `datetime._days_before_year`). -/
def daysBeforeYear (year : Int) : Int :=
  (year - 1) * 365 + (year - 1) / 4 - (year - 1) / 100 + (year - 1) / 400

/-- Proleptic Gregorian ordinal (CPython `datetime._ymd2ord`):
January 1 of year 1 is day 1. -/
def ymd2ord (year month day : Int) : Int :=
  daysBeforeYear year + daysBeforeMonth year month + day

/-- `date.toordinal()`. -/
def toordinal (d : Date) : Int := ymd2ord d.year d.month d.day

/-- Ordinal of the Monday starting ISO week 1 of `year`
(CPython `datetime._isoweek1monday`). -/
def isoweek1monday (year : Int) : Int :=
  if 3 < (ymd2ord year 1 1 + 6) % 7 then
    ymd2ord year 1 1 - (ymd2ord year 1 1 + 6) % 7 + 7
  else
    ymd2ord year 1 1 - (ymd2ord year 1 1 + 6) % 7

/-- `date.isocalendar()`: the (iso year, iso week, iso weekday) triple,
mirroring CPython's branch structure (Python `divmod` on ints agrees
with Lean's `Int` division by the positive constant 7). -/
def isocalendar (d : Date) : Int × Int × Int :=
  if (toordinal d - isoweek1monday d.year) / 7 < 0 then
    (d.year - 1, (toordinal d - isoweek1monday (d.year - 1)) / 7 + 1,
      (toordinal d - isoweek1monday (d.year - 1)) % 7 + 1)
  else if 52 ≤ (toordinal d - isoweek1monday d.year) / 7 ∧
      isoweek1monday (d.year + 1) ≤ toordinal d then
    (d.year + 1, 1, (toordinal d - isoweek1monday d.year) % 7 + 1)
  else
    (d.year, (toordinal d - isoweek1monday d.year) / 7 + 1,
      (toordinal d - isoweek1monday d.year) % 7 + 1)

/-- The dates `datetime.date` can actually represent (no upper year
bound is needed for any claim). -/
def ValidDate (d : Date) : Prop :=
  1 ≤ d.year ∧ 1 ≤ d.month ∧ d.month ≤ 12 ∧ 1 ≤ d.day ∧ d.day ≤ daysInMonth d.year d.month

instance : DecidablePred ValidDate := fun d => by
  unfold ValidDate; infer_instance

-- Sanity checks against CPython's `date.isocalendar()`.
example : isocalendar ⟨2024, 1, 1⟩ = (2024, 1, 1) := by decide
example : isocalendar ⟨2021, 1, 1⟩ = (2020, 53, 5) := by decide
example : isocalendar ⟨2023, 1, 1⟩ = (2022, 52, 7) := by decide
example : isocalendar ⟨2024, 12, 30⟩ = (2025, 1, 1) := by decide
example : isocalendar ⟨1, 1, 1⟩ = (1, 1, 1) := by decide

theorem isLeapB_iff (y : Int) :
    isLeapB y = true ↔ (y % 4 = 0 ∧ (y % 100 ≠ 0 ∨ y % 400 = 0)) := by
  unfold isLeapB
  simp [Bool.and_eq_true, beq_iff_eq, Bool.or_eq_true, bne_iff_ne]

theorem daysBeforeYear_succ (y : Int) :
    daysBeforeYear (y + 1) = daysBeforeYear y + (if isLeapB y then 366 else 365) := by
  have h := isLeapB_iff y
  unfold daysBeforeYear
  rcases hb : isLeapB y <;> simp [hb] at h ⊢ <;> omega

theorem daysBeforeYear_le {a b : Int} (h : a ≤ b) :
    daysBeforeYear a + 365 * (b - a) ≤ daysBeforeYear b := by
  unfold daysBeforeYear; omega

theorem dayOfYear_bounds_aux (y m dd : Int)
    (hm1 : 1 ≤ m) (hm2 : m ≤ 12) (hd1 : 1 ≤ dd) (hd2 : dd ≤ daysInMonth y m) :
    1 ≤ daysBeforeMonth y m + dd ∧
      daysBeforeMonth y m + dd ≤ (if isLeapB y then 366 else 365) := by
  unfold daysInMonth at hd2
  unfold daysBeforeMonth daysBeforeMonthTable
  rcases hL : isLeapB y <;>
    simp only [hL, Bool.false_eq_true, and_false, if_false, if_true, and_true,
      Bool.true_eq_false] at hd2 ⊢ <;>
    interval_cases m <;>
    simp_all <;> omega

theorem dayOfYear_bounds (d : Date) (h : ValidDate d) :
    1 ≤ daysBeforeMonth d.year d.month + d.day ∧
      daysBeforeMonth d.year d.month + d.day ≤ (if isLeapB d.year then 366 else 365) := by
  obtain ⟨hy, hm1, hm2, hd1, hd2⟩ := h
  exact dayOfYear_bounds_aux d.year d.month d.day hm1 hm2 hd1 hd2

theorem toordinal_bounds (d : Date) (h : ValidDate d) :
    daysBeforeYear d.year < toordinal d ∧ toordinal d ≤ daysBeforeYear (d.year + 1) := by
  have hb := dayOfYear_bounds d h
  have hs := daysBeforeYear_succ d.year
  unfold toordinal ymd2ord
  rcases hL : isLeapB d.year <;> simp [hL] at hb hs <;> omega

theorem toordinal_year_eq (d1 d2 : Date) (h1 : ValidDate d1) (h2 : ValidDate d2)
    (h : toordinal d1 = toordinal d2) : d1.year = d2.year := by
  by_contra hne
  have hb1 := toordinal_bounds d1 h1
  have hb2 := toordinal_bounds d2 h2
  rcases lt_or_gt_of_ne hne with hlt | hlt
  · have := daysBeforeYear_le (show d1.year + 1 ≤ d2.year by omega)
    omega
  · have := daysBeforeYear_le (show d2.year + 1 ≤ d1.year by omega)
    omega

set_option maxHeartbeats 2000000 in
theorem month_day_inj (y m1 d1 m2 d2 : Int)
    (hm1 : 1 ≤ m1 ∧ m1 ≤ 12) (hd1 : 1 ≤ d1 ∧ d1 ≤ daysInMonth y m1)
    (hm2 : 1 ≤ m2 ∧ m2 ≤ 12) (hd2 : 1 ≤ d2 ∧ d2 ≤ daysInMonth y m2)
    (h : daysBeforeMonth y m1 + d1 = daysBeforeMonth y m2 + d2) :
    m1 = m2 ∧ d1 = d2 := by
  obtain ⟨hm1a, hm1b⟩ := hm1
  obtain ⟨hm2a, hm2b⟩ := hm2
  obtain ⟨hd1a, hd1b⟩ := hd1
  obtain ⟨hd2a, hd2b⟩ := hd2
  unfold daysInMonth at hd1b hd2b
  unfold daysBeforeMonth daysBeforeMonthTable at h
  rcases hL : isLeapB y <;>
    simp only [hL, Bool.false_eq_true, and_false, if_false, if_true, and_true,
      Bool.true_eq_false] at hd1b hd2b h <;>
    interval_cases m1 <;> interval_cases m2 <;>
    simp_all <;> omega

theorem toordinal_inj (d1 d2 : Date) (h1 : ValidDate d1) (h2 : ValidDate d2)
    (h : toordinal d1 = toordinal d2) : d1 = d2 := by
  have hy := toordinal_year_eq d1 d2 h1 h2 h
  obtain ⟨hy1, hm1a, hm1b, hd1a, hd1b⟩ := h1
  obtain ⟨hy2, hm2a, hm2b, hd2a, hd2b⟩ := h2
  unfold toordinal ymd2ord at h
  rw [hy] at h
  have := month_day_inj d2.year d1.month d1.day d2.month d2.day
    ⟨hm1a, hm1b⟩ ⟨hd1a, by rw [← hy]; exact hd1b⟩ ⟨hm2a, hm2b⟩ ⟨hd2a, hd2b⟩ (by omega)
  cases d1; cases d2; simp_all

theorem isoweek1monday_emod (y : Int) : isoweek1monday y % 7 = 1 := by
  unfold isoweek1monday; split_ifs <;> omega

theorem isoweek1monday_near (y : Int) :
    ymd2ord y 1 1 - 3 ≤ isoweek1monday y ∧ isoweek1monday y ≤ ymd2ord y 1 1 + 3 := by
  unfold isoweek1monday; split_ifs <;> omega

theorem ymd2ord_jan1 (y : Int) : ymd2ord y 1 1 = daysBeforeYear y + 1 := by
  unfold ymd2ord daysBeforeMonth daysBeforeMonthTable
  norm_num

theorem isocalendar_toordinal (d : Date) (h : ValidDate d) :
    isoweek1monday (isocalendar d).1 + 7 * ((isocalendar d).2.1 - 1)
      + ((isocalendar d).2.2 - 1) = toordinal d := by
  have hb := toordinal_bounds d h
  have hm1 := isoweek1monday_emod d.year
  have hm2 := isoweek1monday_emod (d.year + 1)
  have hnear := isoweek1monday_near (d.year + 1)
  have hj := ymd2ord_jan1 (d.year + 1)
  unfold isocalendar
  split_ifs with hA hB <;> simp only <;> omega

theorem isoweekday_range (d : Date) :
    1 ≤ (isocalendar d).2.2 ∧ (isocalendar d).2.2 ≤ 7 := by
  unfold isocalendar
  split_ifs <;> simp only <;> omega

theorem isocalendar_inj (d1 d2 : Date) (h1 : ValidDate d1) (h2 : ValidDate d2)
    (h : isocalendar d1 = isocalendar d2) : d1 = d2 := by
  have e1 := isocalendar_toordinal d1 h1
  have e2 := isocalendar_toordinal d2 h2
  rw [h] at e1
  exact toordinal_inj d1 d2 h1 h2 (by omega)

/-! ## Grids

A numpy array of shape (rows, cols) is a list of rows; a cell is
`none` for the empty sentinel (NaN in a float64 grid, `None` in an
object grid) and `some v` for a stored value. -/

/-- Grid of optional cells. -/
abbrev Grid (α : Type) := List (List (Option α))

/-- Cell lookup; out-of-range reads give `none` (they only occur where
the Python code would never index). -/
def getCell (g : Grid α) (i j : Nat) : Option α :=
  ((g[i]?.getD [])[j]?).getD none

/-- Single-cell assignment `grid[i, j] = v`. -/
def setCell (g : Grid α) (i j : Nat) (v : α) : Grid α :=
  g.set i ((g[i]?.getD []).set j (some v))

/-- The fancy-indexed assignment `grid[week_coords, day_coords] = data`:
positionally paired coordinates are written in order (numpy leaves the
last write in place on duplicate indices). -/
def fillPairs (g : Grid α) (ps : List ((Nat × Nat) × α)) : Grid α :=
  ps.foldl (fun acc p => setCell acc p.1.1 p.1.2 p.2) g

/-- Column count of a (rectangular) grid. -/
def rowLen (g : Grid α) : Nat := (g[0]?.getD []).length

/-- numpy's `.T` on a rectangular 2-D array. -/
def gridTranspose (g : Grid α) : Grid α :=
  (List.range (rowLen g)).map (fun j => g.map (fun row => row[j]?.getD none))

/-- `np.nan * np.empty((nWeeks, 7))`: the all-NaN grid. -/
def emptyGrid (nWeeks : Nat) : Grid α := List.replicate nWeeks (List.replicate 7 none)

/-! ## The grid builder `date_grid` -/

/-- Python's lexicographic `<=` on (iso year, iso week) tuples, the
order `sorted` uses on the pairs. -/
def weekLe (a b : Int × Int) : Prop := a.1 < b.1 ∨ (a.1 = b.1 ∧ a.2 ≤ b.2)

/-- Strict lexicographic order on (iso year, iso week) tuples. -/
def weekLt (a b : Int × Int) : Prop := a.1 < b.1 ∨ (a.1 = b.1 ∧ a.2 < b.2)

instance : DecidableRel weekLe := fun a b => by unfold weekLe; infer_instance

instance : DecidableRel weekLt := fun a b => by unfold weekLt; infer_instance

instance : IsTotal (Int × Int) weekLe := ⟨by intro a b; unfold weekLe; omega⟩

instance : IsTrans (Int × Int) weekLe := ⟨by intro a b c; unfold weekLe; omega⟩

/-- The (iso year, iso week) pair of a date: `day.isocalendar()[:2]`. -/
def isoYW (d : Date) : Int × Int := ((isocalendar d).1, (isocalendar d).2.1)

/-- The iso weekday of a date: `day.isocalendar()[2]`. -/
def isoWeekday (d : Date) : Int := (isocalendar d).2.2

/-- `sorted(list(set(...)))` over the input's (iso year, iso week)
pairs: the distinct pairs in ascending lexicographic order. -/
def uniqueWeeksOf (dates : List Date) : List (Int × Int) :=
  List.insertionSort weekLe ((dates.map isoYW).dedup)

/-- `weeknum2idx[...]`: the week-axis index assigned to a date. -/
def weekRank (dates : List Date) (d : Date) : Nat :=
  @List.indexOf (Int × Int) instBEqOfDecidableEq (isoYW d) (uniqueWeeksOf dates)

/-- The weekday-axis index of a date: iso weekday minus one. -/
def dayIdx (d : Date) : Nat := (isoWeekday d - 1).toNat

/-- The (week index, weekday index) cell coordinates of a date. -/
def gridPos (dates : List Date) (d : Date) : Nat × Nat :=
  (weekRank dates d, dayIdx d)

/-- Errors the helpers can raise.  `shapeMismatch` is numpy's broadcast
ValueError on the fancy assignment, `indexError` the too-many-indices /
out-of-range IndexError, `attributeError` Python's `None.month`, and
`valueError` the empty-reduction ValueError of `min`/`max`. -/
inductive GridErr
  | shapeMismatch
  | indexError
  | attributeError
  | valueError
deriving DecidableEq, Repr

deriving instance DecidableEq for Except

/-- `if flip: return grid.T`. -/
def applyFlip (flip : Bool) (g : Grid α) : Grid α := if flip then gridTranspose g else g

/-- The grid produced once the value list has been broadcast to one
value per date: NaN-initialised array, then the fancy assignment. -/
def date_grid_raw (dates : List Date) (data : List α) : Grid α :=
  fillPairs (emptyGrid (uniqueWeeksOf dates).length) ((dates.map (gridPos dates)).zip data)

/-- `date_grid(dates, data, flip)` from `helpers.py`.  An empty date
list makes `iso_dates[:, :2]` fail with IndexError; a value list of the
wrong length fails the numpy broadcast with ValueError (shape
mismatch) unless it has exactly one element, which numpy broadcasts to
every indexed cell. -/
def date_grid (dates : List Date) (data : List α) (flip : Bool) :
    Except GridErr (Grid α) :=
  match dates with
  | [] => .error .indexError
  | _ :: _ =>
    if data.length = dates.length then
      .ok (applyFlip flip (date_grid_raw dates data))
    else
      match data with
      | [v] => .ok (applyFlip flip (date_grid_raw dates (List.replicate dates.length v)))
      | _ => .error .shapeMismatch

-- The end-to-end scenario of the spec: one ISO week, shape (1, 7),
-- value 1 at cell (0, 0) since 2024-01-01 is a Monday.
example :
    date_grid [⟨2024, 1, 1⟩, ⟨2024, 1, 2⟩, ⟨2024, 1, 3⟩, ⟨2024, 1, 4⟩,
        ⟨2024, 1, 5⟩, ⟨2024, 1, 6⟩, ⟨2024, 1, 7⟩]
      ([1, 2, 3, 4, 5, 6, 7] : List Int) false =
    .ok [[some 1, some 2, some 3, some 4, some 5, some 6, some 7]] := by decide

example :
    date_grid [⟨2024, 1, 1⟩, ⟨2024, 1, 2⟩] ([1, 2] : List Int) true =
    .ok [[some 1], [some 2], [none], [none], [none], [none], [none]] := by decide

/-! ## Cell-level lemmas -/

theorem length_setCell (g : Grid α) (i j : Nat) (v : α) :
    (setCell g i j v).length = g.length :=
  List.length_set g i _

theorem row_setCell (g : Grid α) (i j : Nat) (v : α) (i' : Nat) :
    ((setCell g i j v)[i']?.getD []).length = (g[i']?.getD []).length := by
  unfold setCell
  rw [List.getElem?_set]
  by_cases hii : i = i'
  · subst hii
    by_cases hi : i < g.length
    · simp [hi, List.length_set]
    · have : g[i]? = none := List.getElem?_eq_none (by omega)
      simp [hi, this]
  · simp [hii]

theorem getCell_setCell_same (g : Grid α) (i j : Nat) (v : α)
    (hi : i < g.length) (hj : j < (g[i]?.getD []).length) :
    getCell (setCell g i j v) i j = some v := by
  have hj2 : j < g[i].length := by
    rw [List.getElem?_eq_getElem hi] at hj
    simpa using hj
  unfold getCell setCell
  simp [List.getElem?_set, hi, hj2]

theorem getCell_setCell_ne (g : Grid α) (i j i' j' : Nat) (v : α)
    (h : (i', j') ≠ (i, j)) :
    getCell (setCell g i j v) i' j' = getCell g i' j' := by
  unfold getCell setCell
  by_cases hii : i = i'
  · subst hii
    have hjj : j ≠ j' := by
      intro hc; exact h (by rw [hc])
    by_cases hi : i < g.length
    · simp [List.getElem?_set, hi, hjj]
    · have hnone : g[i]? = none := List.getElem?_eq_none (by omega)
      simp [List.getElem?_set, hi, hnone]
  · simp [List.getElem?_set, hii]

theorem fillPairs_nil (g : Grid α) : fillPairs g [] = g := rfl

theorem fillPairs_cons (g : Grid α) (p : (Nat × Nat) × α) (ps : List ((Nat × Nat) × α)) :
    fillPairs g (p :: ps) = fillPairs (setCell g p.1.1 p.1.2 p.2) ps := by
  unfold fillPairs
  rw [List.foldl_cons]

theorem length_fillPairs (ps : List ((Nat × Nat) × α)) :
    ∀ g : Grid α, (fillPairs g ps).length = g.length := by
  induction ps with
  | nil => intro g; rfl
  | cons p ps ih =>
    intro g
    rw [fillPairs_cons, ih, length_setCell]

theorem row_fillPairs (ps : List ((Nat × Nat) × α)) :
    ∀ (g : Grid α) (i' : Nat),
      ((fillPairs g ps)[i']?.getD []).length = (g[i']?.getD []).length := by
  induction ps with
  | nil => intro g i'; rfl
  | cons p ps ih =>
    intro g i'
    rw [fillPairs_cons, ih, row_setCell]

theorem getCell_fillPairs_not_mem (ps : List ((Nat × Nat) × α)) :
    ∀ (g : Grid α) (i j : Nat), (∀ pv ∈ ps, pv.1 ≠ (i, j)) →
      getCell (fillPairs g ps) i j = getCell g i j := by
  induction ps with
  | nil => intro g i j _; rfl
  | cons p ps ih =>
    intro g i j h
    rw [fillPairs_cons, ih _ _ _ (fun pv hpv => h pv (List.mem_cons_of_mem p hpv))]
    exact getCell_setCell_ne g p.1.1 p.1.2 i j p.2
      (fun hc => h p (List.mem_cons_self p ps) hc.symm)

theorem getCell_fillPairs_mem (ps : List ((Nat × Nat) × α)) :
    ∀ (g : Grid α), (ps.map Prod.fst).Nodup →
      ∀ (i j : Nat) (v : α), ((i, j), v) ∈ ps →
        i < g.length → j < (g[i]?.getD []).length →
        getCell (fillPairs g ps) i j = some v := by
  induction ps with
  | nil => intro g _ i j v hm; exact absurd hm (List.not_mem_nil _)
  | cons q ps ih =>
    intro g hnd i j v hm hi hj
    obtain ⟨⟨qi, qj⟩, qv⟩ := q
    rw [List.map_cons, List.nodup_cons] at hnd
    rw [fillPairs_cons]
    rcases List.mem_cons.mp hm with heq | hmem
    · simp only [Prod.mk.injEq] at heq
      obtain ⟨⟨rfl, rfl⟩, rfl⟩ := heq
      rw [getCell_fillPairs_not_mem ps _ i j ?_]
      · exact getCell_setCell_same g i j v hi hj
      · intro pv hpv hc
        have hm2 : pv.1 ∈ ps.map Prod.fst := List.mem_map_of_mem Prod.fst hpv
        rw [hc] at hm2
        exact hnd.1 hm2
    · exact ih _ hnd.2 i j v hmem
        (by rw [length_setCell]; exact hi)
        (by rw [row_setCell]; exact hj)

theorem getCell_emptyGrid (n : Nat) (i j : Nat) :
    getCell (emptyGrid n : Grid α) i j = none := by
  unfold getCell emptyGrid
  rw [List.getElem?_replicate]
  by_cases hi : i < n
  · simp only [if_pos hi, Option.getD_some]
    rw [List.getElem?_replicate]
    by_cases hj : j < 7 <;> simp [hj]
  · simp [hi]

theorem length_emptyGrid (n : Nat) : (emptyGrid n : Grid α).length = n :=
  List.length_replicate n _

theorem row_emptyGrid (n : Nat) (i : Nat) (hi : i < n) :
    ((emptyGrid n : Grid α)[i]?.getD []).length = 7 := by
  unfold emptyGrid
  rw [List.getElem?_replicate]
  simp [hi]

/-! ## Transpose lemmas -/

theorem length_gridTranspose (g : Grid α) : (gridTranspose g).length = rowLen g := by
  unfold gridTranspose
  rw [List.length_map, List.length_range]

theorem row_mem_gridTranspose (g : Grid α) (row : List (Option α))
    (h : row ∈ gridTranspose g) : row.length = g.length := by
  unfold gridTranspose at h
  obtain ⟨j, _, rfl⟩ := List.mem_map.mp h
  exact List.length_map g _

theorem getCell_gridTranspose (g : Grid α) (i j : Nat) (hj : j < rowLen g) :
    getCell (gridTranspose g) j i = getCell g i j := by
  unfold getCell gridTranspose
  rw [List.getElem?_map, List.getElem?_range hj]
  simp only [Option.map_some', Option.getD_some]
  rw [List.getElem?_map]
  cases hgi : g[i]? with
  | none => simp
  | some row => simp

theorem getCell_gridTranspose_ge (g : Grid α) (i j : Nat) (hj : rowLen g ≤ j) :
    getCell (gridTranspose g) j i = none := by
  unfold getCell gridTranspose
  have h0 : (List.map (fun j => List.map (fun row => row[j]?.getD none) g)
      (List.range (rowLen g)))[j]? = none :=
    List.getElem?_eq_none (by rw [List.length_map, List.length_range]; exact hj)
  rw [h0]
  rfl

theorem rowLen_gridTranspose (g : Grid α) (h : 0 < rowLen g) :
    rowLen (gridTranspose g) = g.length := by
  unfold rowLen gridTranspose
  rw [List.getElem?_map, List.getElem?_range h]
  simp [List.length_map]

theorem getCell_eq_none_of_ge {g : Grid α} {c : Nat}
    (hrect : ∀ row ∈ g, row.length = c) (i j : Nat) (hj : c ≤ j) :
    getCell g i j = none := by
  unfold getCell
  cases hgi : g[i]? with
  | none => simp
  | some row =>
    have hrow : row ∈ g := by
      obtain ⟨hlt, he⟩ := List.getElem?_eq_some.mp hgi
      exact he ▸ List.getElem_mem hlt
    simp only [Option.getD_some]
    rw [List.getElem?_eq_none (by rw [hrect row hrow]; exact hj)]
    rfl

/-! ## Position lemmas for the grid builder -/

theorem isoYW_mem_uniqueWeeks {dates : List Date} {d : Date} (hd : d ∈ dates) :
    isoYW d ∈ uniqueWeeksOf dates := by
  unfold uniqueWeeksOf
  rw [(List.perm_insertionSort weekLe _).mem_iff, List.mem_dedup]
  exact List.mem_map_of_mem isoYW hd

theorem nodup_uniqueWeeks (dates : List Date) : (uniqueWeeksOf dates).Nodup := by
  unfold uniqueWeeksOf
  exact ((List.perm_insertionSort weekLe _).nodup_iff).mpr (List.nodup_dedup _)

theorem sorted_uniqueWeeks (dates : List Date) :
    (uniqueWeeksOf dates).Pairwise weekLe :=
  List.sorted_insertionSort weekLe _

theorem mem_uniqueWeeks_iff (dates : List Date) (w : Int × Int) :
    w ∈ uniqueWeeksOf dates ↔ w ∈ dates.map isoYW := by
  unfold uniqueWeeksOf
  rw [(List.perm_insertionSort weekLe _).mem_iff, List.mem_dedup]

theorem strict_sorted_uniqueWeeks (dates : List Date) :
    (uniqueWeeksOf dates).Pairwise weekLt := by
  have h := (sorted_uniqueWeeks dates).and (nodup_uniqueWeeks dates)
  refine h.imp ?_
  intro a b hab
  obtain ⟨hle, hne⟩ := hab
  unfold weekLe at hle
  unfold weekLt
  have : a.1 ≠ b.1 ∨ a.2 ≠ b.2 := by
    by_contra hc
    push_neg at hc
    exact hne (Prod.ext hc.1 hc.2)
  omega

theorem weekRank_lt {dates : List Date} {d : Date} (hd : d ∈ dates) :
    weekRank dates d < (uniqueWeeksOf dates).length :=
  List.indexOf_lt_length.mpr (isoYW_mem_uniqueWeeks hd)

theorem dayIdx_lt (d : Date) : dayIdx d < 7 := by
  have h := isoweekday_range d
  unfold dayIdx isoWeekday
  omega

theorem gridPos_inj {dates : List Date} (hval : ∀ d ∈ dates, ValidDate d)
    {d1 d2 : Date} (h1 : d1 ∈ dates) (h2 : d2 ∈ dates)
    (h : gridPos dates d1 = gridPos dates d2) : d1 = d2 := by
  unfold gridPos weekRank dayIdx at h
  rw [Prod.mk.injEq] at h
  have hyw : isoYW d1 = isoYW d2 :=
    (List.indexOf_inj (isoYW_mem_uniqueWeeks h1) (isoYW_mem_uniqueWeeks h2)).mp h.1
  have hr1 := isoweekday_range d1
  have hr2 := isoweekday_range d2
  have hwd : isoWeekday d1 = isoWeekday d2 := by
    unfold isoWeekday at *
    omega
  apply isocalendar_inj d1 d2 (hval d1 h1) (hval d2 h2)
  have e1 : isocalendar d1 = ((isoYW d1).1, (isoYW d1).2, isoWeekday d1) := rfl
  have e2 : isocalendar d2 = ((isoYW d2).1, (isoYW d2).2, isoWeekday d2) := rfl
  rw [e1, e2, hyw, hwd]

theorem posList_nodup {dates : List Date} (hval : ∀ d ∈ dates, ValidDate d)
    (hnd : dates.Nodup) : (dates.map (gridPos dates)).Nodup :=
  List.Nodup.map_on (fun _ h1 _ h2 h => gridPos_inj hval h1 h2 h) hnd

/-! ## `date_grid_raw` lemmas -/

theorem length_date_grid_raw (dates : List Date) (data : List α) :
    (date_grid_raw dates data).length = (uniqueWeeksOf dates).length := by
  unfold date_grid_raw
  rw [length_fillPairs, length_emptyGrid]

theorem row_date_grid_raw (dates : List Date) (data : List α) (i : Nat)
    (hi : i < (uniqueWeeksOf dates).length) :
    ((date_grid_raw dates data)[i]?.getD []).length = 7 := by
  unfold date_grid_raw
  rw [row_fillPairs, row_emptyGrid _ _ hi]

theorem row_mem_date_grid_raw (dates : List Date) (data : List α)
    (row : List (Option α)) (h : row ∈ date_grid_raw dates data) : row.length = 7 := by
  obtain ⟨i, hi, he⟩ := List.mem_iff_getElem.mp h
  have hlen : i < (uniqueWeeksOf dates).length := by
    rw [← length_date_grid_raw dates data]; exact hi
  have := row_date_grid_raw dates data i hlen
  rw [List.getElem?_eq_getElem hi] at this
  simpa [he] using this

theorem getCell_date_grid_raw_of_mem {dates : List Date} {data : List α}
    (hval : ∀ d ∈ dates, ValidDate d) (hnd : dates.Nodup)
    (hlen : data.length = dates.length)
    (k : Nat) (hk : k < dates.length) :
    getCell (date_grid_raw dates data)
        (weekRank dates (dates.get ⟨k, hk⟩)) (dayIdx (dates.get ⟨k, hk⟩))
      = some (data.get ⟨k, hlen ▸ hk⟩) := by
  unfold date_grid_raw
  set d := dates.get ⟨k, hk⟩ with hd
  have hdm : d ∈ dates := List.get_mem dates k hk
  have hzlen : ((dates.map (gridPos dates)).zip data).length = dates.length := by
    rw [List.length_zip, List.length_map, hlen, Nat.min_self]
  apply getCell_fillPairs_mem _ _ ?nodup (weekRank dates d) (dayIdx d) _ ?mem ?ilt ?jlt
  case nodup =>
    rw [List.map_fst_zip _ _ (by rw [List.length_map, hlen])]
    exact posList_nodup hval hnd
  case mem =>
    rw [List.mem_iff_getElem]
    refine ⟨k, by rw [hzlen]; exact hk, ?_⟩
    rw [List.getElem_zip, List.getElem_map]
    simp only [Prod.mk.injEq]
    constructor
    · rfl
    · simp [hlen]
  case ilt =>
    rw [length_emptyGrid]
    exact weekRank_lt hdm
  case jlt =>
    rw [row_emptyGrid _ _ (weekRank_lt hdm)]
    exact dayIdx_lt d

theorem getCell_date_grid_raw_not_mem {dates : List Date} {data : List α}
    (i j : Nat) (h : (i, j) ∉ dates.map (gridPos dates)) :
    getCell (date_grid_raw dates data) i j = none := by
  unfold date_grid_raw
  rw [getCell_fillPairs_not_mem]
  · exact getCell_emptyGrid _ i j
  · intro pv hpv hc
    have hm := (List.of_mem_zip hpv).1
    exact h (hc ▸ hm)

theorem uniqueWeeks_pos {dates : List Date} (hne : dates ≠ []) :
    0 < (uniqueWeeksOf dates).length := by
  cases dates with
  | nil => exact absurd rfl hne
  | cons d ds =>
    have hm : isoYW d ∈ uniqueWeeksOf (d :: ds) :=
      isoYW_mem_uniqueWeeks (List.mem_cons_self d ds)
    exact List.length_pos.mpr (List.ne_nil_of_mem hm)

theorem rowLen_date_grid_raw {dates : List Date} (data : List α) (hne : dates ≠ []) :
    rowLen (date_grid_raw dates data) = 7 := by
  unfold rowLen
  exact row_date_grid_raw dates data 0 (uniqueWeeks_pos hne)

/-- Any successful `date_grid` call returns the (possibly transposed)
raw grid filled from a value list of full length (the input values, or
the broadcast single value). -/
theorem date_grid_ok {dates : List Date} {data : List α} {flip : Bool} {g : Grid α}
    (h : date_grid dates data flip = .ok g) :
    ∃ dataN : List α, dataN.length = dates.length ∧
      g = applyFlip flip (date_grid_raw dates dataN) ∧
      (data.length = dates.length → dataN = data) := by
  cases dates with
  | nil => simp [date_grid] at h
  | cons d ds =>
    unfold date_grid at h
    by_cases hl : data.length = (d :: ds).length
    · rw [if_pos hl] at h
      simp only [Except.ok.injEq] at h
      exact ⟨data, hl, h.symm, fun _ => rfl⟩
    · rw [if_neg hl] at h
      cases data with
      | nil => simp at h
      | cons v vs =>
        cases vs with
        | nil =>
          simp only [Except.ok.injEq] at h
          exact ⟨List.replicate (d :: ds).length v, List.length_replicate _ _,
            h.symm, fun hc => absurd hc hl⟩
        | cons w ws => simp at h

/-! ## Claims C1-C4 -/

/-- C1: for every list of distinct (valid) input dates and an
equal-length list of values, `date_grid` places each date's value in
exactly one grid cell, whose week index is the rank of the date's
(iso year, iso week) pair among the sorted distinct week pairs of the
input and whose weekday index is the date's ISO weekday minus 1,
transposed when the flip flag is set; all other cells are empty. -/
theorem C1_each_value_in_exactly_one_cell {α : Type} (dates : List Date) (data : List α)
    (flip : Bool) (hval : ∀ d ∈ dates, ValidDate d) (hnd : dates.Nodup)
    (hlen : data.length = dates.length) (hne : dates ≠ []) :
    ∃ g, date_grid dates data flip = .ok g ∧
      (∀ (k : Nat) (d : Date), dates[k]? = some d →
        getCell g (if flip then dayIdx d else weekRank dates d)
          (if flip then weekRank dates d else dayIdx d) = data[k]?) ∧
      (dates.map (gridPos dates)).Nodup ∧
      (∀ i j : Nat, (i, j) ∉ dates.map (gridPos dates) →
        getCell g (if flip then j else i) (if flip then i else j) = none) := by
  have hex : date_grid dates data flip = .ok (applyFlip flip (date_grid_raw dates data)) := by
    cases dates with
    | nil => exact absurd rfl hne
    | cons d ds => unfold date_grid; rw [if_pos hlen]
  refine ⟨_, hex, ?place, posList_nodup hval hnd, ?empty⟩
  case place =>
    intro k d hkd
    obtain ⟨hk, hdk⟩ := List.getElem?_eq_some.mp hkd
    have hcell := getCell_date_grid_raw_of_mem hval hnd hlen k hk
    have hdget : dates.get ⟨k, hk⟩ = d := hdk
    rw [hdget] at hcell
    have hdata : data[k]? = some (data.get ⟨k, hlen ▸ hk⟩) :=
      List.getElem?_eq_getElem (hlen ▸ hk)
    rw [hdata]
    cases flip with
    | false => simpa [applyFlip] using hcell
    | true =>
      simp only [applyFlip, if_true]
      rw [getCell_gridTranspose]
      · exact hcell
      · rw [rowLen_date_grid_raw data hne]
        exact dayIdx_lt _
  case empty =>
    intro i j hnm
    cases flip with
    | false => simpa [applyFlip] using getCell_date_grid_raw_not_mem i j hnm
    | true =>
      simp only [applyFlip, if_true]
      by_cases hj : j < rowLen (date_grid_raw dates data)
      · rw [getCell_gridTranspose _ _ _ hj]
        exact getCell_date_grid_raw_not_mem i j hnm
      · exact getCell_gridTranspose_ge _ _ _ (Nat.le_of_not_lt hj)

/-- Witness for C1 at two concrete dates spanning two ISO weeks. -/
theorem C1_each_value_in_exactly_one_cell_witness :
    (∀ d ∈ ([⟨2024, 1, 1⟩, ⟨2024, 1, 8⟩] : List Date), ValidDate d) ∧
    ([⟨2024, 1, 1⟩, ⟨2024, 1, 8⟩] : List Date).Nodup ∧
    ([10, 20] : List Int).length = ([⟨2024, 1, 1⟩, ⟨2024, 1, 8⟩] : List Date).length ∧
    ([⟨2024, 1, 1⟩, ⟨2024, 1, 8⟩] : List Date) ≠ [] ∧
    (∃ g, date_grid ([⟨2024, 1, 1⟩, ⟨2024, 1, 8⟩] : List Date) ([10, 20] : List Int) false = .ok g ∧
      (∀ (k : Nat) (d : Date), ([⟨2024, 1, 1⟩, ⟨2024, 1, 8⟩] : List Date)[k]? = some d →
        getCell g (if false then dayIdx d else weekRank [⟨2024, 1, 1⟩, ⟨2024, 1, 8⟩] d)
          (if false then weekRank [⟨2024, 1, 1⟩, ⟨2024, 1, 8⟩] d else dayIdx d)
          = ([10, 20] : List Int)[k]?) ∧
      (([⟨2024, 1, 1⟩, ⟨2024, 1, 8⟩] : List Date).map
        (gridPos [⟨2024, 1, 1⟩, ⟨2024, 1, 8⟩])).Nodup ∧
      (∀ i j : Nat, (i, j) ∉ ([⟨2024, 1, 1⟩, ⟨2024, 1, 8⟩] : List Date).map
          (gridPos [⟨2024, 1, 1⟩, ⟨2024, 1, 8⟩]) →
        getCell g (if false then j else i) (if false then i else j) = none)) :=
  ⟨by decide, by decide, by decide, by decide,
    C1_each_value_in_exactly_one_cell _ _ false (by decide) (by decide) (by decide) (by decide)⟩

/-- C2: for every non-empty input list, a returned grid has 7 positions
on the weekday axis and one position per distinct (iso year, iso week)
pair on the other axis, those pairs being sorted strictly ascending. -/
theorem C2_grid_shape {α : Type} (dates : List Date) (data : List α) (flip : Bool)
    (g : Grid α) (hne : dates ≠ []) (h : date_grid dates data flip = .ok g) :
    (if flip then
        g.length = 7 ∧ ∀ row ∈ g, row.length = (uniqueWeeksOf dates).length
      else
        g.length = (uniqueWeeksOf dates).length ∧ ∀ row ∈ g, row.length = 7) ∧
      (uniqueWeeksOf dates).length = (dates.map isoYW).toFinset.card ∧
      (uniqueWeeksOf dates).Pairwise weekLt ∧
      (∀ w, w ∈ uniqueWeeksOf dates ↔ w ∈ dates.map isoYW) := by
  obtain ⟨dataN, hlenN, rfl, -⟩ := date_grid_ok h
  refine ⟨?shape, ?card, strict_sorted_uniqueWeeks dates, mem_uniqueWeeks_iff dates⟩
  case card =>
    rw [List.card_toFinset]
    unfold uniqueWeeksOf
    exact ((List.perm_insertionSort weekLe _).length_eq)
  case shape =>
    cases flip with
    | false =>
      simp only [applyFlip, if_false, Bool.false_eq_true]
      exact ⟨length_date_grid_raw dates dataN,
        fun row hr => row_mem_date_grid_raw dates dataN row hr⟩
    | true =>
      simp only [applyFlip, if_true]
      constructor
      · rw [length_gridTranspose, rowLen_date_grid_raw dataN hne]
      · intro row hr
        rw [row_mem_gridTranspose _ row hr, length_date_grid_raw]

/-- Witness for C2 at a concrete two-week input. -/
theorem C2_grid_shape_witness :
    ([⟨2024, 1, 1⟩, ⟨2024, 1, 8⟩] : List Date) ≠ [] ∧
    (date_grid ([⟨2024, 1, 1⟩, ⟨2024, 1, 8⟩] : List Date) ([10, 20] : List Int) false =
      .ok [[some 10, none, none, none, none, none, none],
           [some 20, none, none, none, none, none, none]]) ∧
    ((if false then
        ([[some (10 : Int), none, none, none, none, none, none],
          [some 20, none, none, none, none, none, none]] : Grid Int).length = 7 ∧
          ∀ row ∈ ([[some (10 : Int), none, none, none, none, none, none],
            [some 20, none, none, none, none, none, none]] : Grid Int),
            row.length = (uniqueWeeksOf [⟨2024, 1, 1⟩, ⟨2024, 1, 8⟩]).length
      else
        ([[some (10 : Int), none, none, none, none, none, none],
          [some 20, none, none, none, none, none, none]] : Grid Int).length =
            (uniqueWeeksOf [⟨2024, 1, 1⟩, ⟨2024, 1, 8⟩]).length ∧
          ∀ row ∈ ([[some (10 : Int), none, none, none, none, none, none],
            [some 20, none, none, none, none, none, none]] : Grid Int), row.length = 7) ∧
      (uniqueWeeksOf [⟨2024, 1, 1⟩, ⟨2024, 1, 8⟩]).length =
        (([⟨2024, 1, 1⟩, ⟨2024, 1, 8⟩] : List Date).map isoYW).toFinset.card ∧
      (uniqueWeeksOf [⟨2024, 1, 1⟩, ⟨2024, 1, 8⟩]).Pairwise weekLt ∧
      (∀ w, w ∈ uniqueWeeksOf [⟨2024, 1, 1⟩, ⟨2024, 1, 8⟩] ↔
        w ∈ ([⟨2024, 1, 1⟩, ⟨2024, 1, 8⟩] : List Date).map isoYW)) :=
  ⟨by decide, by decide,
    C2_grid_shape _ ([10, 20] : List Int) false _ (by decide) (by decide)⟩

/-- C3: building the grid with the flip flag set yields exactly the
transpose of building it unset, for identical inputs (errors
propagate identically). -/
theorem C3_flip_is_transpose {α : Type} (dates : List Date) (data : List α) :
    date_grid dates data true = (date_grid dates data false).map gridTranspose := by
  cases dates with
  | nil => rfl
  | cons d ds =>
    unfold date_grid
    by_cases hl : data.length = (d :: ds).length
    · rw [if_pos hl, if_pos hl]; rfl
    · rw [if_neg hl, if_neg hl]
      cases data with
      | nil => rfl
      | cons v vs =>
        cases vs with
        | nil => rfl
        | cons w ws => rfl

/-- C4 counterexample: two dates with a single value (mismatched
lengths) do NOT raise; numpy broadcasts the single value to both
cells and a grid is produced. -/
theorem C4_counterexample_broadcast :
    date_grid ([⟨2024, 1, 1⟩, ⟨2024, 1, 2⟩] : List Date) ([5] : List Int) false =
      .ok [[some 5, some 5, none, none, none, none, none]] := by decide

/-- C4 amended: with a non-empty date list, mismatched lengths raise
the shape-mismatch error unless the value list has length exactly 1
(which numpy broadcasts); an empty date list fails earlier with an
IndexError on `iso_dates[:, :2]`. -/
theorem C4_amended_shape_mismatch {α : Type} (dates : List Date) (data : List α)
    (flip : Bool) (hne : dates ≠ []) (hlen : data.length ≠ dates.length)
    (hone : data.length ≠ 1) :
    date_grid dates data flip = .error .shapeMismatch := by
  cases dates with
  | nil => exact absurd rfl hne
  | cons d ds =>
    unfold date_grid
    rw [if_neg hlen]
    cases data with
    | nil => rfl
    | cons v vs =>
      cases vs with
      | nil => exact absurd rfl hone
      | cons w ws => rfl

/-- Witness for the amended C4 at a concrete length-3 value list. -/
theorem C4_amended_shape_mismatch_witness :
    ([⟨2024, 1, 1⟩, ⟨2024, 1, 2⟩] : List Date) ≠ [] ∧
    ([5, 6, 7] : List Int).length ≠ ([⟨2024, 1, 1⟩, ⟨2024, 1, 2⟩] : List Date).length ∧
    ([5, 6, 7] : List Int).length ≠ 1 ∧
    date_grid ([⟨2024, 1, 1⟩, ⟨2024, 1, 2⟩] : List Date) ([5, 6, 7] : List Int) false =
      .error .shapeMismatch :=
  ⟨by decide, by decide, by decide,
    C4_amended_shape_mismatch _ _ false (by decide) (by decide) (by decide)⟩

/-! ## numpy reductions (`arr.max()`, `arr.min()`, `np.nanmin`, `np.nanmax`) -/

theorem foldl_max_le_iff {α : Type} [LinearOrder α] (l : List α) :
    ∀ (a c : α), l.foldl max a ≤ c ↔ a ≤ c ∧ ∀ b ∈ l, b ≤ c := by
  induction l with
  | nil => intro a c; simp
  | cons x xs ih =>
    intro a c
    rw [List.foldl_cons, ih, List.forall_mem_cons, max_le_iff]
    tauto

theorem foldl_max_mem {α : Type} [LinearOrder α] (l : List α) :
    ∀ a : α, l.foldl max a = a ∨ l.foldl max a ∈ l := by
  induction l with
  | nil => intro a; exact Or.inl rfl
  | cons x xs ih =>
    intro a
    rw [List.foldl_cons]
    rcases ih (max a x) with h | h
    · rw [h]
      rcases max_choice a x with hm | hm
      · rw [hm]; exact Or.inl rfl
      · rw [hm]; exact Or.inr (List.mem_cons_self x xs)
    · exact Or.inr (List.mem_cons_of_mem x h)

theorem le_foldl_min_iff {α : Type} [LinearOrder α] (l : List α) :
    ∀ (a c : α), c ≤ l.foldl min a ↔ c ≤ a ∧ ∀ b ∈ l, c ≤ b := by
  induction l with
  | nil => intro a c; simp
  | cons x xs ih =>
    intro a c
    rw [List.foldl_cons, ih, List.forall_mem_cons, le_min_iff]
    tauto

theorem foldl_min_mem {α : Type} [LinearOrder α] (l : List α) :
    ∀ a : α, l.foldl min a = a ∨ l.foldl min a ∈ l := by
  induction l with
  | nil => intro a; exact Or.inl rfl
  | cons x xs ih =>
    intro a
    rw [List.foldl_cons]
    rcases ih (min a x) with h | h
    · rw [h]
      rcases min_choice a x with hm | hm
      · rw [hm]; exact Or.inl rfl
      · rw [hm]; exact Or.inr (List.mem_cons_self x xs)
    · exact Or.inr (List.mem_cons_of_mem x h)

/-- numpy `arr.max()`: empty reduction raises ValueError. -/
def npMax {α : Type} [LinearOrder α] : List α → Except GridErr α
  | [] => .error .valueError
  | a :: rest => .ok (rest.foldl max a)

/-- numpy `arr.min()`: empty reduction raises ValueError. -/
def npMin {α : Type} [LinearOrder α] : List α → Except GridErr α
  | [] => .error .valueError
  | a :: rest => .ok (rest.foldl min a)

theorem npMax_mem {α : Type} [LinearOrder α] {l : List α} {m : α}
    (h : npMax l = .ok m) : m ∈ l := by
  cases l with
  | nil => simp [npMax] at h
  | cons a rest =>
    simp only [npMax, Except.ok.injEq] at h
    rcases foldl_max_mem rest a with hm | hm
    · rw [← h, hm]; exact List.mem_cons_self a rest
    · rw [← h]; exact List.mem_cons_of_mem a hm

theorem le_npMax {α : Type} [LinearOrder α] {l : List α} {m : α}
    (h : npMax l = .ok m) : ∀ b ∈ l, b ≤ m := by
  cases l with
  | nil => simp [npMax] at h
  | cons a rest =>
    simp only [npMax, Except.ok.injEq] at h
    have := (foldl_max_le_iff rest a (rest.foldl max a)).mp le_rfl
    rw [List.forall_mem_cons]
    rw [← h]
    exact ⟨this.1, this.2⟩

theorem npMin_mem {α : Type} [LinearOrder α] {l : List α} {m : α}
    (h : npMin l = .ok m) : m ∈ l := by
  cases l with
  | nil => simp [npMin] at h
  | cons a rest =>
    simp only [npMin, Except.ok.injEq] at h
    rcases foldl_min_mem rest a with hm | hm
    · rw [← h, hm]; exact List.mem_cons_self a rest
    · rw [← h]; exact List.mem_cons_of_mem a hm

theorem npMin_le {α : Type} [LinearOrder α] {l : List α} {m : α}
    (h : npMin l = .ok m) : ∀ b ∈ l, m ≤ b := by
  cases l with
  | nil => simp [npMin] at h
  | cons a rest =>
    simp only [npMin, Except.ok.injEq] at h
    have := (le_foldl_min_iff rest a (rest.foldl min a)).mp le_rfl
    rw [List.forall_mem_cons]
    rw [← h]
    exact ⟨this.1, this.2⟩

theorem npMax_ok_of_ne_nil {α : Type} [LinearOrder α] {l : List α} (h : l ≠ []) :
    ∃ m, npMax l = .ok m := by
  cases l with
  | nil => exact absurd rfl h
  | cons a rest => exact ⟨rest.foldl max a, rfl⟩

theorem npMin_ok_of_ne_nil {α : Type} [LinearOrder α] {l : List α} (h : l ≠ []) :
    ∃ m, npMin l = .ok m := by
  cases l with
  | nil => exact absurd rfl h
  | cons a rest => exact ⟨rest.foldl min a, rfl⟩

theorem npMax_eq_of_mem_iff {α : Type} [LinearOrder α] {l1 l2 : List α} {m1 m2 : α}
    (hiff : ∀ a, a ∈ l1 ↔ a ∈ l2)
    (h1 : npMax l1 = .ok m1) (h2 : npMax l2 = .ok m2) : m1 = m2 :=
  le_antisymm (le_npMax h2 m1 ((hiff m1).mp (npMax_mem h1)))
    (le_npMax h1 m2 ((hiff m2).mpr (npMax_mem h2)))

theorem npMin_eq_of_mem_iff {α : Type} [LinearOrder α] {l1 l2 : List α} {m1 m2 : α}
    (hiff : ∀ a, a ∈ l1 ↔ a ∈ l2)
    (h1 : npMin l1 = .ok m1) (h2 : npMin l2 = .ok m2) : m1 = m2 :=
  le_antisymm (npMin_le h1 m2 ((hiff m2).mpr (npMin_mem h2)))
    (npMin_le h2 m1 ((hiff m1).mp (npMin_mem h1)))

/-! ## Label placement -/

/-- Row-major list of cell positions equal to `some v`:
`np.nonzero(grid == v)` paired up as (row, col). -/
def nonzeroPositions {α : Type} [DecidableEq α] (g : Grid α) (v : α) : List (Nat × Nat) :=
  (List.range g.length).flatMap (fun i =>
    (List.range (rowLen g)).filterMap (fun j =>
      if getCell g i j = some v then some (i, j) else none))

theorem mem_nonzeroPositions {α : Type} [DecidableEq α] (g : Grid α) (v : α)
    (i j : Nat) :
    (i, j) ∈ nonzeroPositions g v ↔
      i < g.length ∧ j < rowLen g ∧ getCell g i j = some v := by
  unfold nonzeroPositions
  rw [List.mem_flatMap]
  constructor
  · rintro ⟨a, ha, hm⟩
    rw [List.mem_filterMap] at hm
    obtain ⟨b, hb, hfb⟩ := hm
    by_cases hc : getCell g a b = some v
    · rw [if_pos hc] at hfb
      obtain ⟨rfl, rfl⟩ : a = i ∧ b = j := by
        simpa only [Option.some.injEq, Prod.mk.injEq] using hfb
      exact ⟨List.mem_range.mp ha, List.mem_range.mp hb, hc⟩
    · rw [if_neg hc] at hfb
      exact absurd hfb (by simp)
  · rintro ⟨hi, hj, hc⟩
    exact ⟨i, List.mem_range.mpr hi, List.mem_filterMap.mpr
      ⟨j, List.mem_range.mpr hj, by rw [if_pos hc]⟩⟩

/-- The week-axis component of a nonzero position: `xx` when flipped,
`yy` otherwise. -/
def weekAxisIdx (flip : Bool) (p : Nat × Nat) : Nat := if flip then p.2 else p.1

/-- `(xx.max() + 1 + xx.min()) / 2` (respectively `yy`): the label
coordinate of one group, failing on numpy's empty reduction. -/
def spanMidpoint (poss : List Nat) : Except GridErr ℚ := do
  let mx ← npMax poss
  let mn ← npMin poss
  pure (((mx : ℚ) + 1 + mn) / 2)

/-- `sorted(set(month_years))` with Python's lexicographic tuple
order. -/
def uniqueMonthYears (dates : List Date) : List (Int × Int) :=
  List.insertionSort weekLe ((dates.map (fun d => (d.year, d.month))).dedup)

/-- `sorted(set(years))`. -/
def uniqueYears (dates : List Date) : List Int :=
  List.insertionSort (fun a b => a ≤ b) ((dates.map (fun d => d.year)).dedup)

/-- The labelling loop shared by `add_month_label` / `add_year_label`:
for each key, the midpoint of the span of grid cells holding that key
along the week axis. -/
def locs_loop {κ : Type} [DecidableEq κ] (grid : Grid κ) (flip : Bool) :
    List κ → Except GridErr (List (κ × ℚ))
  | [] => .ok []
  | key :: rest => do
    let mid ← spanMidpoint ((nonzeroPositions grid key).map (weekAxisIdx flip))
    let tail ← locs_loop grid flip rest
    pure ((key, mid) :: tail)

/-- `add_month_label`: the (month-year, week-axis coordinate) pairs fed
to the tick placement (string keys `str((year, month))` are modelled by
the pairs themselves; `str` is injective on them). -/
def add_month_label (dates : List Date) (flip : Bool) :
    Except GridErr (List ((Int × Int) × ℚ)) := do
  let grid ← date_grid dates (dates.map (fun d => (d.year, d.month))) flip
  locs_loop grid flip (uniqueMonthYears dates)

/-- `add_year_label`: the (year, week-axis coordinate) pairs. -/
def add_year_label (dates : List Date) (flip : Bool) :
    Except GridErr (List (Int × ℚ)) := do
  let grid ← date_grid dates (dates.map (fun d => d.year)) flip
  locs_loop grid flip (uniqueYears dates)

/-- `add_date_label`: the day-of-month labels `(x, y, text)` emitted by
the `np.ndindex` loop; `int(...)` of a NaN cell raises ValueError which
the `except` swallows, so empty cells emit nothing. -/
def add_date_label (dates : List Date) (flip : Bool) :
    Except GridErr (List (ℚ × ℚ × Int)) := do
  let g ← date_grid dates (dates.map (fun d => d.day)) flip
  pure ((List.range g.length).flatMap (fun i =>
    (List.range (rowLen g)).filterMap (fun j =>
      (getCell g i j).map (fun v => ((j : ℚ) + 1/2, (i : ℚ) + 1/2, v)))))

/-! ## `cal_heatmap` color limits -/

/-- `np.nanmin(cal)`: minimum over the non-NaN cells, or NaN (`none`)
when every cell is NaN. -/
def nanmin (g : Grid ℚ) : Option ℚ :=
  match g.flatten.filterMap id with
  | [] => none
  | a :: rest => some (rest.foldl min a)

/-- `np.nanmax(cal)`. -/
def nanmax (g : Grid ℚ) : Option ℚ :=
  match g.flatten.filterMap id with
  | [] => none
  | a :: rest => some (rest.foldl max a)

/-- Python's `x or y` on an optional float: `None` and `0.0` are both
falsy and fall through to `y`. -/
def pyOr (x : Option ℚ) (y : Option ℚ) : Option ℚ :=
  match x with
  | some v => if v = 0 then y else some v
  | none => y

/-- The two arguments `cal_heatmap` passes to `pc.set_clim`
(`cmin or np.nanmin(cal)`, `cmax or np.nanmax(cal)`). -/
def set_clim_args (cal : Grid ℚ) (cmin cmax : Option ℚ) : Option ℚ × Option ℚ :=
  (pyOr cmin (nanmin cal), pyOr cmax (nanmax cal))

/-! ## Relating grid cells back to dates -/

/-- A cell of the raw grid built from `dates.map f` holds `some v`
exactly when some input date maps there with `f d = v`. -/
theorem getCell_raw_map_iff {β : Type} {dates : List Date}
    (hval : ∀ d ∈ dates, ValidDate d) (hnd : dates.Nodup) (f : Date → β)
    (i j : Nat) (v : β) :
    getCell (date_grid_raw dates (dates.map f)) i j = some v ↔
      ∃ d ∈ dates, f d = v ∧ i = weekRank dates d ∧ j = dayIdx d := by
  have hmaplen : (dates.map f).length = dates.length := List.length_map dates f
  constructor
  · intro h
    by_cases hm : (i, j) ∈ dates.map (gridPos dates)
    · obtain ⟨d, hd, hpos⟩ := List.mem_map.mp hm
      obtain ⟨⟨k, hk⟩, hdk⟩ := List.mem_iff_get.mp hd
      have hcell := getCell_date_grid_raw_of_mem hval hnd hmaplen k hk
      have hfval : (dates.map f).get ⟨k, hmaplen ▸ hk⟩ = f d := by
        have : (dates.map f).get ⟨k, hmaplen ▸ hk⟩ = f (dates.get ⟨k, hk⟩) :=
          List.getElem_map f
        rw [this, hdk]
      rw [hdk, hfval] at hcell
      have hpi : i = weekRank dates d ∧ j = dayIdx d := by
        have := hpos
        unfold gridPos at this
        rw [Prod.mk.injEq] at this
        exact ⟨this.1.symm, this.2.symm⟩
      rw [hpi.1, hpi.2] at h
      rw [h] at hcell
      exact ⟨d, hd, by injection hcell with hv; exact hv.symm, hpi.1, hpi.2⟩
    · rw [getCell_date_grid_raw_not_mem i j hm] at h
      exact absurd h (by simp)
  · rintro ⟨d, hd, rfl, rfl, rfl⟩
    obtain ⟨⟨k, hk⟩, hdk⟩ := List.mem_iff_get.mp hd
    have hcell := getCell_date_grid_raw_of_mem hval hnd hmaplen k hk
    have hfval : (dates.map f).get ⟨k, hmaplen ▸ hk⟩ = f (dates.get ⟨k, hk⟩) :=
      List.getElem_map f
    rw [hfval, hdk] at hcell
    exact hcell

/-- `sorted(set(map(f, dates)))` holds exactly the values `f` takes on
the input dates. -/
theorem mem_sort_dedup_map {β : Type} [DecidableEq β] (r : β → β → Prop)
    [DecidableRel r] (dates : List Date) (f : Date → β) (v : β) :
    v ∈ List.insertionSort r ((dates.map f).dedup) ↔ ∃ d ∈ dates, f d = v := by
  rw [(List.perm_insertionSort r _).mem_iff, List.mem_dedup, List.mem_map]

/-- The week-axis indices occupied by the group of dates with `f d = v`
(the claim's occupied week indices of a label group). -/
def groupWeeks {β : Type} [DecidableEq β] (dates : List Date) (f : Date → β) (v : β) :
    List Nat :=
  (dates.filter (fun d => decide (f d = v))).map (weekRank dates)

theorem mem_groupWeeks_iff {β : Type} [DecidableEq β] (dates : List Date)
    (f : Date → β) (v : β) (a : Nat) :
    a ∈ groupWeeks dates f v ↔ ∃ d ∈ dates, f d = v ∧ a = weekRank dates d := by
  unfold groupWeeks
  simp only [List.mem_map, List.mem_filter, decide_eq_true_eq]
  constructor
  · rintro ⟨d, ⟨hd, hf⟩, rfl⟩
    exact ⟨d, hd, hf, rfl⟩
  · rintro ⟨d, hd, hf, rfl⟩
    exact ⟨d, ⟨hd, hf⟩, rfl⟩

/-- The week-axis components of the nonzero positions of value `v` in
the (possibly flipped) grid built from `dates.map f` are exactly the
week ranks of the dates in the `v` group. -/
theorem weekAxis_nonzero_iff {β : Type} [DecidableEq β] {dates : List Date}
    (hval : ∀ d ∈ dates, ValidDate d) (hnd : dates.Nodup) (hne : dates ≠ [])
    (f : Date → β) (flip : Bool) (v : β) (a : Nat) :
    a ∈ (nonzeroPositions (applyFlip flip (date_grid_raw dates (dates.map f))) v).map
        (weekAxisIdx flip) ↔
      ∃ d ∈ dates, f d = v ∧ a = weekRank dates d := by
  have hrlen : (date_grid_raw dates (dates.map f)).length = (uniqueWeeksOf dates).length :=
    length_date_grid_raw dates _
  have hrow : rowLen (date_grid_raw dates (dates.map f)) = 7 :=
    rowLen_date_grid_raw _ hne
  cases flip with
  | false =>
    simp only [applyFlip, if_false, Bool.false_eq_true, List.mem_map]
    constructor
    · rintro ⟨⟨i, j⟩, hp, rfl⟩
      obtain ⟨hi, hj, hc⟩ := (mem_nonzeroPositions _ v i j).mp hp
      obtain ⟨d, hd, hf, hwk, hdi⟩ := (getCell_raw_map_iff hval hnd f i j v).mp hc
      exact ⟨d, hd, hf, hwk⟩
    · rintro ⟨d, hd, hf, rfl⟩
      refine ⟨(weekRank dates d, dayIdx d), ?_, rfl⟩
      rw [mem_nonzeroPositions]
      refine ⟨by rw [hrlen]; exact weekRank_lt hd, by rw [hrow]; exact dayIdx_lt d, ?_⟩
      exact (getCell_raw_map_iff hval hnd f _ _ v).mpr ⟨d, hd, hf, rfl, rfl⟩
  | true =>
    simp only [applyFlip, if_true, List.mem_map]
    have hTlen : (gridTranspose (date_grid_raw dates (dates.map f))).length = 7 := by
      rw [length_gridTranspose, hrow]
    have hTrow : rowLen (gridTranspose (date_grid_raw dates (dates.map f))) =
        (uniqueWeeksOf dates).length := by
      rw [rowLen_gridTranspose _ (by rw [hrow]; omega), hrlen]
    constructor
    · rintro ⟨⟨i, j⟩, hp, rfl⟩
      obtain ⟨hi, hj, hc⟩ := (mem_nonzeroPositions _ v i j).mp hp
      rw [hTlen] at hi
      rw [getCell_gridTranspose _ j i (by rw [hrow]; exact hi)] at hc
      obtain ⟨d, hd, hf, hwk, hdi⟩ := (getCell_raw_map_iff hval hnd f j i v).mp hc
      exact ⟨d, hd, hf, hwk⟩
    · rintro ⟨d, hd, hf, rfl⟩
      refine ⟨(dayIdx d, weekRank dates d), ?_, rfl⟩
      rw [mem_nonzeroPositions]
      refine ⟨by rw [hTlen]; exact dayIdx_lt d, by rw [hTrow]; exact weekRank_lt hd, ?_⟩
      rw [getCell_gridTranspose _ _ _ (by rw [hrow]; exact dayIdx_lt d)]
      exact (getCell_raw_map_iff hval hnd f _ _ v).mpr ⟨d, hd, hf, rfl, rfl⟩

/-- Two lists with the same members have the same span midpoint; the
midpoint matches the claim's `(min + max + 1) / 2` formula. -/
theorem spanMidpoint_eq {l1 l2 : List Nat} (hiff : ∀ a, a ∈ l1 ↔ a ∈ l2)
    (hne : l2 ≠ []) :
    ∃ mn mx, npMin l2 = .ok mn ∧ npMax l2 = .ok mx ∧
      spanMidpoint l1 = .ok (((mn : ℚ) + mx + 1) / 2) := by
  have hne1 : l1 ≠ [] := by
    cases l2 with
    | nil => exact absurd rfl hne
    | cons b bs =>
      exact List.ne_nil_of_mem ((hiff b).mpr (List.mem_cons_self b bs))
  obtain ⟨mx1, hmx1⟩ := npMax_ok_of_ne_nil hne1
  obtain ⟨mn1, hmn1⟩ := npMin_ok_of_ne_nil hne1
  obtain ⟨mx2, hmx2⟩ := npMax_ok_of_ne_nil hne
  obtain ⟨mn2, hmn2⟩ := npMin_ok_of_ne_nil hne
  have hx : mx1 = mx2 := npMax_eq_of_mem_iff hiff hmx1 hmx2
  have hn : mn1 = mn2 := npMin_eq_of_mem_iff hiff hmn1 hmn2
  refine ⟨mn2, mx2, hmn2, hmx2, ?_⟩
  unfold spanMidpoint
  rw [hmx1, hmn1, hx, hn]
  show Except.ok (((mx2 : ℚ) + 1 + mn2) / 2) = Except.ok (((mn2 : ℚ) + mx2 + 1) / 2)
  congr 1
  ring

/-- The midpoint of one key's span, defaulting to 0 when the span is
empty (only used to name the successful value). -/
def spanMidOr0 {κ : Type} [DecidableEq κ] (grid : Grid κ) (flip : Bool) (key : κ) : ℚ :=
  match spanMidpoint ((nonzeroPositions grid key).map (weekAxisIdx flip)) with
  | .ok q => q
  | .error _ => 0

theorem spanMidOr0_eq {κ : Type} [DecidableEq κ] {grid : Grid κ} {flip : Bool}
    {key : κ} {q : ℚ}
    (h : spanMidpoint ((nonzeroPositions grid key).map (weekAxisIdx flip)) = .ok q) :
    spanMidOr0 grid flip key = q := by
  unfold spanMidOr0
  rw [h]

theorem locs_loop_ok {κ : Type} [DecidableEq κ] (grid : Grid κ) (flip : Bool)
    (keys : List κ)
    (h : ∀ k ∈ keys, ∃ q, spanMidpoint ((nonzeroPositions grid k).map (weekAxisIdx flip)) = .ok q) :
    locs_loop grid flip keys = .ok (keys.map (fun k => (k, spanMidOr0 grid flip k))) := by
  induction keys with
  | nil => rfl
  | cons key rest ih =>
    obtain ⟨q, hq⟩ := h key (List.mem_cons_self key rest)
    have hmid : spanMidpoint ((nonzeroPositions grid key).map (weekAxisIdx flip)) =
        .ok (spanMidOr0 grid flip key) := by
      rw [hq, spanMidOr0_eq hq]
    simp only [locs_loop]
    rw [hmid, ih (fun k hk => h k (List.mem_cons_of_mem key hk))]
    rfl

/-- Shared specification of both label loops: the loop succeeds, and
every key's coordinate is the `(min + max + 1) / 2` midpoint of the
week indices occupied by that key's group of dates. -/
theorem label_loop_spec {β : Type} [DecidableEq β] (dates : List Date) (flip : Bool)
    (hval : ∀ d ∈ dates, ValidDate d) (hnd : dates.Nodup) (hne : dates ≠ [])
    (f : Date → β) (r : β → β → Prop) [DecidableRel r] :
    ∃ locs, (do
        let grid ← date_grid dates (dates.map f) flip
        locs_loop grid flip (List.insertionSort r ((dates.map f).dedup)) :
          Except GridErr (List (β × ℚ))) = .ok locs ∧
      ∀ v ∈ List.insertionSort r ((dates.map f).dedup), ∃ mn mx : Nat,
        npMin (groupWeeks dates f v) = .ok mn ∧
        npMax (groupWeeks dates f v) = .ok mx ∧
        (v, ((mn : ℚ) + mx + 1) / 2) ∈ locs := by
  have hgrid : date_grid dates (dates.map f) flip =
      .ok (applyFlip flip (date_grid_raw dates (dates.map f))) := by
    cases dates with
    | nil => exact absurd rfl hne
    | cons d ds =>
      unfold date_grid
      rw [if_pos (List.length_map (d :: ds) f)]
  set G := applyFlip flip (date_grid_raw dates (dates.map f)) with hG
  have hspan : ∀ v ∈ List.insertionSort r ((dates.map f).dedup),
      ∃ mn mx : Nat, npMin (groupWeeks dates f v) = .ok mn ∧
        npMax (groupWeeks dates f v) = .ok mx ∧
        spanMidpoint ((nonzeroPositions G v).map (weekAxisIdx flip)) =
          .ok (((mn : ℚ) + mx + 1) / 2) := by
    intro v hv
    obtain ⟨d, hd, hf⟩ := (mem_sort_dedup_map r dates f v).mp hv
    have hgne : groupWeeks dates f v ≠ [] :=
      List.ne_nil_of_mem
        ((mem_groupWeeks_iff dates f v (weekRank dates d)).mpr ⟨d, hd, hf, rfl⟩)
    have hiff : ∀ a, a ∈ (nonzeroPositions G v).map (weekAxisIdx flip) ↔
        a ∈ groupWeeks dates f v := by
      intro a
      rw [hG, weekAxis_nonzero_iff hval hnd hne f flip v a, mem_groupWeeks_iff]
    exact spanMidpoint_eq hiff hgne
  refine ⟨(List.insertionSort r ((dates.map f).dedup)).map
      (fun k => (k, spanMidOr0 G flip k)), ?_, ?_⟩
  · show (date_grid dates (dates.map f) flip >>= fun grid =>
      locs_loop grid flip (List.insertionSort r ((dates.map f).dedup))) = _
    rw [hgrid]
    show locs_loop G flip (List.insertionSort r ((dates.map f).dedup)) = _
    exact locs_loop_ok G flip _ (fun k hk => by
      obtain ⟨mn, mx, h1, h2, hs⟩ := hspan k hk
      exact ⟨_, hs⟩)
  · intro v hv
    obtain ⟨mn, mx, hmn, hmx, hs⟩ := hspan v hv
    refine ⟨mn, mx, hmn, hmx, ?_⟩
    rw [← spanMidOr0_eq hs]
    exact List.mem_map_of_mem _ hv

/-! ## Claims C5, C6, C9 -/

/-- C5: for every (year, month) group and every year group of the
input, the month-label and year-label routines place the label at
`(min occupied week index + max occupied week index + 1) / 2`, the
min/max being global over the group's occupied week indices (so also
for non-contiguous groups), in both orientations. -/
theorem C5_label_midpoints (dates : List Date) (flip : Bool)
    (hval : ∀ d ∈ dates, ValidDate d) (hnd : dates.Nodup) (hne : dates ≠ []) :
    (∃ locs, add_month_label dates flip = .ok locs ∧
      ∀ my ∈ uniqueMonthYears dates, ∃ mn mx : Nat,
        npMin (groupWeeks dates (fun d => (d.year, d.month)) my) = .ok mn ∧
        npMax (groupWeeks dates (fun d => (d.year, d.month)) my) = .ok mx ∧
        (my, ((mn : ℚ) + mx + 1) / 2) ∈ locs) ∧
    (∃ ylocs, add_year_label dates flip = .ok ylocs ∧
      ∀ y ∈ uniqueYears dates, ∃ mn mx : Nat,
        npMin (groupWeeks dates (fun d => d.year) y) = .ok mn ∧
        npMax (groupWeeks dates (fun d => d.year) y) = .ok mx ∧
        (y, ((mn : ℚ) + mx + 1) / 2) ∈ ylocs) := by
  constructor
  · exact label_loop_spec dates flip hval hnd hne (fun d => (d.year, d.month)) weekLe
  · exact label_loop_spec dates flip hval hnd hne (fun d => d.year) (fun a b => a ≤ b)

/-- Concrete input reused by witnesses: two Mondays in adjacent ISO
weeks (so the January 2024 group spans week rows 0 and 1). -/
def wdates : List Date := [⟨2024, 1, 1⟩, ⟨2024, 1, 8⟩]

/-- Witness for C5. -/
theorem C5_label_midpoints_witness :
    (∀ d ∈ wdates, ValidDate d) ∧ wdates.Nodup ∧ wdates ≠ [] ∧
    ((∃ locs, add_month_label wdates false = .ok locs ∧
      ∀ my ∈ uniqueMonthYears wdates, ∃ mn mx : Nat,
        npMin (groupWeeks wdates (fun d => (d.year, d.month)) my) = .ok mn ∧
        npMax (groupWeeks wdates (fun d => (d.year, d.month)) my) = .ok mx ∧
        (my, ((mn : ℚ) + mx + 1) / 2) ∈ locs) ∧
    (∃ ylocs, add_year_label wdates false = .ok ylocs ∧
      ∀ y ∈ uniqueYears wdates, ∃ mn mx : Nat,
        npMin (groupWeeks wdates (fun d => d.year) y) = .ok mn ∧
        npMax (groupWeeks wdates (fun d => d.year) y) = .ok mx ∧
        (y, ((mn : ℚ) + mx + 1) / 2) ∈ ylocs)) :=
  ⟨by decide, by decide, by decide,
    C5_label_midpoints wdates false (by decide) (by decide) (by decide)⟩

/-- C6: the day-number labels are exactly one label per input date,
centered at that date's cell (`(col + 0.5, row + 0.5)`), holding the
date's day of month; empty cells contribute nothing and raise no
error. -/
theorem C6_date_labels (dates : List Date) (flip : Bool)
    (hval : ∀ d ∈ dates, ValidDate d) (hnd : dates.Nodup) (hne : dates ≠ []) :
    ∃ labels, add_date_label dates flip = .ok labels ∧
      ∀ (x y : ℚ) (v : Int), ((x, y, v) ∈ labels ↔
        ∃ d ∈ dates, v = d.day ∧
          x = (if flip then (weekRank dates d : ℚ) else (dayIdx d : ℚ)) + 1/2 ∧
          y = (if flip then (dayIdx d : ℚ) else (weekRank dates d : ℚ)) + 1/2) := by
  have hgrid : date_grid dates (dates.map (fun d => d.day)) flip =
      .ok (applyFlip flip (date_grid_raw dates (dates.map (fun d => d.day)))) := by
    cases dates with
    | nil => exact absurd rfl hne
    | cons d ds =>
      unfold date_grid
      rw [if_pos (List.length_map (d :: ds) _)]
  set G := applyFlip flip (date_grid_raw dates (dates.map (fun d => d.day))) with hG
  have hrlen : (date_grid_raw dates (dates.map (fun d => d.day))).length =
      (uniqueWeeksOf dates).length := length_date_grid_raw dates _
  have hrow : rowLen (date_grid_raw dates (dates.map (fun d => d.day))) = 7 :=
    rowLen_date_grid_raw _ hne
  have hL : add_date_label dates flip = .ok ((List.range G.length).flatMap (fun i =>
      (List.range (rowLen G)).filterMap (fun j =>
        (getCell G i j).map (fun v => ((j : ℚ) + 1/2, (i : ℚ) + 1/2, v))))) := by
    unfold add_date_label
    rw [hgrid]
    rfl
  refine ⟨_, hL, ?_⟩
  intro x y v
  constructor
  · intro hmem
    rw [List.mem_flatMap] at hmem
    obtain ⟨i, hi, hmem⟩ := hmem
    rw [List.mem_filterMap] at hmem
    obtain ⟨j, hj, hfm⟩ := hmem
    rw [List.mem_range] at hi hj
    rw [Option.map_eq_some'] at hfm
    obtain ⟨w, hw, hwt⟩ := hfm
    have hxyv : x = (j : ℚ) + 1/2 ∧ y = (i : ℚ) + 1/2 ∧ v = w := by
      rw [Prod.mk.injEq, Prod.mk.injEq] at hwt
      exact ⟨hwt.1.symm, hwt.2.1.symm, hwt.2.2.symm⟩
    cases flip with
    | false =>
      rw [hG] at hw
      simp only [applyFlip, if_false, Bool.false_eq_true] at hw
      obtain ⟨d, hd, hfd, hiw, hjd⟩ :=
        (getCell_raw_map_iff hval hnd (fun d => d.day) i j w).mp hw
      refine ⟨d, hd, by rw [hxyv.2.2, ← hfd], ?_, ?_⟩
      · simp only [if_false, Bool.false_eq_true]
        rw [hxyv.1, hjd]
      · simp only [if_false, Bool.false_eq_true]
        rw [hxyv.2.1, hiw]
    | true =>
      rw [hG] at hw hi
      simp only [applyFlip, if_true] at hw hi
      rw [length_gridTranspose, hrow] at hi
      rw [getCell_gridTranspose _ j i (by rw [hrow]; exact hi)] at hw
      obtain ⟨d, hd, hfd, hjw, hid⟩ :=
        (getCell_raw_map_iff hval hnd (fun d => d.day) j i w).mp hw
      refine ⟨d, hd, by rw [hxyv.2.2, ← hfd], ?_, ?_⟩
      · simp only [if_true]
        rw [hxyv.1, hjw]
      · simp only [if_true]
        rw [hxyv.2.1, hid]
  · rintro ⟨d, hd, rfl, rfl, rfl⟩
    rw [List.mem_flatMap]
    cases flip with
    | false =>
      refine ⟨weekRank dates d, ?_, ?_⟩
      · rw [List.mem_range, hG]
        simp only [applyFlip, if_false, Bool.false_eq_true]
        rw [hrlen]
        exact weekRank_lt hd
      · rw [List.mem_filterMap]
        refine ⟨dayIdx d, ?_, ?_⟩
        · rw [List.mem_range, hG]
          simp only [applyFlip, if_false, Bool.false_eq_true]
          rw [hrow]
          exact dayIdx_lt d
        · rw [hG]
          simp only [applyFlip, if_false, Bool.false_eq_true]
          rw [(getCell_raw_map_iff hval hnd (fun d => d.day) _ _ d.day).mpr
            ⟨d, hd, rfl, rfl, rfl⟩]
          simp only [Option.map_some']
    | true =>
      refine ⟨dayIdx d, ?_, ?_⟩
      · rw [List.mem_range, hG]
        simp only [applyFlip, if_true]
        rw [length_gridTranspose, hrow]
        exact dayIdx_lt d
      · rw [List.mem_filterMap]
        refine ⟨weekRank dates d, ?_, ?_⟩
        · rw [List.mem_range, hG]
          simp only [applyFlip, if_true]
          rw [rowLen_gridTranspose _ (by rw [hrow]; omega), hrlen]
          exact weekRank_lt hd
        · rw [hG]
          simp only [applyFlip, if_true]
          rw [getCell_gridTranspose _ _ _ (by rw [hrow]; exact dayIdx_lt d)]
          rw [(getCell_raw_map_iff hval hnd (fun d => d.day) _ _ d.day).mpr
            ⟨d, hd, rfl, rfl, rfl⟩]
          simp only [Option.map_some']

/-- Witness for C6. -/
theorem C6_date_labels_witness :
    (∀ d ∈ wdates, ValidDate d) ∧ wdates.Nodup ∧ wdates ≠ [] ∧
    (∃ labels, add_date_label wdates false = .ok labels ∧
      ∀ (x y : ℚ) (v : Int), ((x, y, v) ∈ labels ↔
        ∃ d ∈ wdates, v = d.day ∧
          x = (if false then (weekRank wdates d : ℚ) else (dayIdx d : ℚ)) + 1/2 ∧
          y = (if false then (dayIdx d : ℚ) else (weekRank wdates d : ℚ)) + 1/2)) :=
  ⟨by decide, by decide, by decide,
    C6_date_labels wdates false (by decide) (by decide) (by decide)⟩

/-! ## Claim C9 -/

theorem mem_cells_iff (cal : Grid ℚ) (v : ℚ) :
    v ∈ cal.flatten.filterMap id ↔ ∃ row ∈ cal, some v ∈ row := by
  rw [List.mem_filterMap]
  constructor
  · rintro ⟨a, ha, hid⟩
    simp only [id_eq] at hid
    subst hid
    rw [List.mem_flatten] at ha
    exact ha
  · rintro ⟨row, hrow, hv⟩
    exact ⟨some v, List.mem_flatten.mpr ⟨row, hrow, hv⟩, rfl⟩

theorem nanmin_spec {cal : Grid ℚ} {v : ℚ} (h : nanmin cal = some v) :
    (∃ row ∈ cal, some v ∈ row) ∧ ∀ row ∈ cal, ∀ w : ℚ, some w ∈ row → v ≤ w := by
  unfold nanmin at h
  cases hcs : cal.flatten.filterMap id with
  | nil => rw [hcs] at h; simp at h
  | cons a rest =>
    rw [hcs] at h
    simp only [Option.some.injEq] at h
    constructor
    · apply (mem_cells_iff cal v).mp
      rw [hcs]
      rcases foldl_min_mem rest a with hm | hm
      · rw [← h, hm]; exact List.mem_cons_self a rest
      · rw [← h]; exact List.mem_cons_of_mem a hm
    · intro row hrow w hw
      have hwmem : w ∈ cal.flatten.filterMap id :=
        (mem_cells_iff cal w).mpr ⟨row, hrow, hw⟩
      rw [hcs] at hwmem
      have hle := (le_foldl_min_iff rest a (rest.foldl min a)).mp le_rfl
      rw [← h]
      rcases List.mem_cons.mp hwmem with rfl | hm
      · exact hle.1
      · exact hle.2 w hm

theorem nanmax_spec {cal : Grid ℚ} {v : ℚ} (h : nanmax cal = some v) :
    (∃ row ∈ cal, some v ∈ row) ∧ ∀ row ∈ cal, ∀ w : ℚ, some w ∈ row → w ≤ v := by
  unfold nanmax at h
  cases hcs : cal.flatten.filterMap id with
  | nil => rw [hcs] at h; simp at h
  | cons a rest =>
    rw [hcs] at h
    simp only [Option.some.injEq] at h
    constructor
    · apply (mem_cells_iff cal v).mp
      rw [hcs]
      rcases foldl_max_mem rest a with hm | hm
      · rw [← h, hm]; exact List.mem_cons_self a rest
      · rw [← h]; exact List.mem_cons_of_mem a hm
    · intro row hrow w hw
      have hwmem : w ∈ cal.flatten.filterMap id :=
        (mem_cells_iff cal w).mpr ⟨row, hrow, hw⟩
      rw [hcs] at hwmem
      have hle := (foldl_max_le_iff rest a (rest.foldl max a)).mp le_rfl
      rw [← h]
      rcases List.mem_cons.mp hwmem with rfl | hm
      · exact hle.1
      · exact hle.2 w hm

/-- C9 counterexample: an explicitly supplied `cmin = 0` is falsy in
Python's `cmin or np.nanmin(cal)` and is silently replaced by the data
minimum (2 here), so the color limits are NOT the supplied values. -/
theorem C9_counterexample_zero_cmin :
    set_clim_args [[some 2]] (some 0) (some 3) = (some 2, some 3) ∧
      (some (2 : ℚ), some (3 : ℚ)) ≠ (some 0, some 3) := by decide

/-- C9 amended: explicitly supplied NONZERO bounds are used exactly; an
unsupplied bound — or a supplied bound equal to 0, which Python's `or`
treats as unsupplied — is computed from the grid ignoring the empty
(NaN) cells (`nanmin`/`nanmax` return a cell value bounding all cell
values, `none` only on an all-NaN grid). -/
theorem C9_amended_clim (cal : Grid ℚ) (a b : ℚ) (ha : a ≠ 0) (hb : b ≠ 0) :
    set_clim_args cal (some a) (some b) = (some a, some b) ∧
    set_clim_args cal none none = (nanmin cal, nanmax cal) ∧
    set_clim_args cal (some 0) (some 0) = (nanmin cal, nanmax cal) ∧
    (∀ v : ℚ, nanmin cal = some v →
      (∃ row ∈ cal, some v ∈ row) ∧ ∀ row ∈ cal, ∀ w : ℚ, some w ∈ row → v ≤ w) ∧
    (∀ v : ℚ, nanmax cal = some v →
      (∃ row ∈ cal, some v ∈ row) ∧ ∀ row ∈ cal, ∀ w : ℚ, some w ∈ row → w ≤ v) := by
  refine ⟨?_, rfl, ?_, fun v h => nanmin_spec h, fun v h => nanmax_spec h⟩
  · show (if a = 0 then nanmin cal else some a, if b = 0 then nanmax cal else some b) =
      (some a, some b)
    rw [if_neg ha, if_neg hb]
  · show (if (0 : ℚ) = 0 then nanmin cal else some 0,
        if (0 : ℚ) = 0 then nanmax cal else some 0) = (nanmin cal, nanmax cal)
    rw [if_pos rfl, if_pos rfl]

/-! ## Month outline tracing (`get_month_outline`) -/

/-- Cell lookup distinguishing an out-of-range access (`none`, numpy
IndexError on `day_grid[y, x]`) from an in-range empty cell
(`some none`, whose `.month` raises AttributeError). -/
def getEntry (g : Grid α) (i j : Nat) : Option (Option α) :=
  g[i]?.bind (fun row => row[j]?)

theorem getEntry_of_getCell {g : Grid α} {i j : Nat} {v : α}
    (h : getCell g i j = some v) : getEntry g i j = some (some v) := by
  unfold getCell at h
  unfold getEntry
  cases hgi : g[i]? with
  | none => rw [hgi] at h; simp at h
  | some row =>
    rw [hgi] at h
    simp only [Option.getD_some] at h
    cases hrj : row[j]? with
    | none => rw [hrj] at h; simp at h
    | some c =>
      rw [hrj] at h
      simp only [Option.getD_some] at h
      simp [hrj, h]

/-- The row-major index scan `for y in range(nrows): for x in range(ncols)`. -/
def scanIndices (mg : Grid ℚ) : List (Nat × Nat) :=
  (List.range mg.length).flatMap (fun y =>
    (List.range (rowLen mg)).map (fun x => (y, x)))

theorem mem_scanIndices (mg : Grid ℚ) (y x : Nat) :
    (y, x) ∈ scanIndices mg ↔ y < mg.length ∧ x < rowLen mg := by
  unfold scanIndices
  rw [List.mem_flatMap]
  constructor
  · rintro ⟨a, ha, hm⟩
    rw [List.mem_map] at hm
    obtain ⟨b, hb, hab⟩ := hm
    rw [Prod.mk.injEq] at hab
    obtain ⟨rfl, rfl⟩ := hab
    exact ⟨List.mem_range.mp ha, List.mem_range.mp hb⟩
  · rintro ⟨hy, hx⟩
    exact ⟨y, List.mem_range.mpr hy,
      List.mem_map.mpr ⟨x, List.mem_range.mpr hx, rfl⟩⟩

/-- The coordinate-collecting loop of `get_month_outline`: for each
scanned cell, skip NaN cells, look the date up in `day_grid` (failing
like Python on a missing or empty entry), and keep `(x, y)` when the
date's month matches. -/
def collectLoop (day_grid : Grid Date) (mg : Grid ℚ) (month : Int) :
    List (Nat × Nat) → Except GridErr (List (Int × Int))
  | [] => .ok []
  | yx :: rest =>
    if (getCell mg yx.1 yx.2).isSome then
      match getEntry day_grid yx.1 yx.2 with
      | none => .error .indexError
      | some none => .error .attributeError
      | some (some d) =>
        (collectLoop day_grid mg month rest).map
          (fun tail => if d.month = month then ((yx.2 : Int), (yx.1 : Int)) :: tail else tail)
    else collectLoop day_grid mg month rest

/-- The 8/9-point staircase polygon built from the non-empty coordinate
list (`upper_left`, `upper_right`, `lower_right`, `lower_right1`,
`lower_right2`, `lower_left`, `second_last`, `corner_last`, closing
back at `upper_left`). -/
def outlinePolygon (c0 : Int × Int) (rest : List (Int × Int)) : List (Int × Int) :=
  let min_y := (rest.map Prod.snd).foldl min c0.2
  let max_y := (rest.map Prod.snd).foldl max c0.2
  let lastc := (c0 :: rest).getLast (List.cons_ne_nil c0 rest)
  let lower_right2 : Int × Int := (lastc.1 + 1, lastc.2 + 1)
  let lower_right1 : Int × Int :=
    if ((7 : Int), max_y) = lower_right2 then lower_right2
    else (lower_right2.1, lower_right2.2 - 1)
  [c0, (7, min_y), (7, max_y), lower_right1, lower_right2,
    (0, max_y + 1), (0, c0.2 + 1), (c0.1, c0.2 + 1), c0]

/-- `get_month_outline` after the orientation has been normalised: the
unflipped day grid is rebuilt from the dates, the coordinates are
collected, and an empty coordinate list fails with the IndexError of
`sorted_coords[:, 1]` on a shape-(0,) array. -/
def outlineCore (dates : List Date) (mg : Grid ℚ) (month : Int) :
    Except GridErr (List (Int × Int)) :=
  date_grid dates dates false >>= fun day_grid =>
    collectLoop day_grid mg month (scanIndices mg) >>= fun coords_list =>
      match coords_list with
      | [] => .error .indexError
      | c0 :: rest => .ok (outlinePolygon c0 rest)

/-- `get_month_outline(dates, month_grid, flip, month)`: transpose the
month grid when flipped, trace, and swap the output coordinate columns
(`coords[:, [1, 0]]`) when flipped. -/
def get_month_outline (dates : List Date) (month_grid : Grid ℚ) (flip : Bool)
    (month : Int) : Except GridErr (List (Int × Int)) :=
  (outlineCore dates (if flip then gridTranspose month_grid else month_grid) month).map
    (fun cs => if flip then cs.map (fun p => (p.2, p.1)) else cs)

theorem getCell_of_getEntry {g : Grid α} {i j : Nat} {v : α}
    (h : getEntry g i j = some (some v)) : getCell g i j = some v := by
  unfold getEntry at h
  unfold getCell
  cases hgi : g[i]? with
  | none => rw [hgi] at h; simp at h
  | some row =>
    rw [hgi] at h
    have h2 : row[j]? = some (some v) := h
    simp [h2]

theorem isSome_raw_iff {dates : List Date} {data : List α}
    (hval : ∀ d ∈ dates, ValidDate d) (hnd : dates.Nodup)
    (hlen : data.length = dates.length) (i j : Nat) :
    (getCell (date_grid_raw dates data) i j).isSome = true ↔
      (i, j) ∈ dates.map (gridPos dates) := by
  constructor
  · intro h
    by_contra hnm
    rw [getCell_date_grid_raw_not_mem i j hnm] at h
    simp at h
  · intro hm
    obtain ⟨d, hd, hpos⟩ := List.mem_map.mp hm
    obtain ⟨⟨k, hk⟩, hdk⟩ := List.mem_iff_get.mp hd
    have hcell := getCell_date_grid_raw_of_mem hval hnd hlen k hk
    rw [hdk] at hcell
    have hij : (i, j) = (weekRank dates d, dayIdx d) := by rw [← hpos]; rfl
    rw [Prod.mk.injEq] at hij
    rw [hij.1, hij.2, hcell]
    rfl

theorem getCell_raw_self_iff {dates : List Date}
    (hval : ∀ d ∈ dates, ValidDate d) (hnd : dates.Nodup) (i j : Nat) (v : Date) :
    getCell (date_grid_raw dates dates) i j = some v ↔
      ∃ d ∈ dates, d = v ∧ i = weekRank dates d ∧ j = dayIdx d := by
  have h := getCell_raw_map_iff hval hnd id i j v
  rw [List.map_id] at h
  simpa using h

theorem getCell_TT {g : Grid α} (i j : Nat) (hi : i < g.length) (hj : j < rowLen g)
    (h : 0 < rowLen g) :
    getCell (gridTranspose (gridTranspose g)) i j = getCell g i j := by
  have h1 : i < rowLen (gridTranspose g) := by
    rw [rowLen_gridTranspose _ h]; exact hi
  rw [getCell_gridTranspose (gridTranspose g) j i h1, getCell_gridTranspose g i j hj]

/-- The collecting loop never fails when every finite cell has a date
below it, and the collected coordinates are those of the matching
cells. -/
theorem collectLoop_ok (day_grid : Grid Date) (mg : Grid ℚ) (month : Int) :
    ∀ idxs : List (Nat × Nat),
      (∀ yx ∈ idxs, (getCell mg yx.1 yx.2).isSome = true →
        ∃ d : Date, getEntry day_grid yx.1 yx.2 = some (some d)) →
      ∃ cs, collectLoop day_grid mg month idxs = .ok cs ∧
        ∀ p : Int × Int, (p ∈ cs ↔ ∃ y x : Nat, (y, x) ∈ idxs ∧
          p = ((x : Int), (y : Int)) ∧
          ∃ d : Date, getEntry day_grid y x = some (some d) ∧
            (getCell mg y x).isSome = true ∧ d.month = month) := by
  intro idxs
  induction idxs with
  | nil =>
    intro _
    exact ⟨[], rfl, by simp⟩
  | cons yx rest ih =>
    obtain ⟨y0, x0⟩ := yx
    intro h
    obtain ⟨cs, hcs, hmem⟩ := ih (fun a ha => h a (List.mem_cons_of_mem _ ha))
    by_cases hs : (getCell mg y0 x0).isSome = true
    · obtain ⟨d, hd⟩ := h (y0, x0) (List.mem_cons_self _ rest) hs
      by_cases hdm : d.month = month
      · refine ⟨((x0 : Int), (y0 : Int)) :: cs, ?_, ?_⟩
        · simp only [collectLoop]
          rw [if_pos hs, hd, hcs]
          show Except.ok (if d.month = month then ((x0 : Int), (y0 : Int)) :: cs else cs) = _
          rw [if_pos hdm]
        · intro p
          rw [List.mem_cons]
          constructor
          · rintro (rfl | hp)
            · exact ⟨y0, x0, List.mem_cons_self _ rest, rfl, d, hd, hs, hdm⟩
            · obtain ⟨y, x, hyx, hpe, d', hd', hs', hm'⟩ := (hmem p).mp hp
              exact ⟨y, x, List.mem_cons_of_mem _ hyx, hpe, d', hd', hs', hm'⟩
          · rintro ⟨y, x, hyx, hpe, d', hd', hs', hm'⟩
            rcases List.mem_cons.mp hyx with heq | hyx2
            · rw [Prod.mk.injEq] at heq
              obtain ⟨rfl, rfl⟩ := heq
              exact Or.inl hpe
            · exact Or.inr ((hmem p).mpr ⟨y, x, hyx2, hpe, d', hd', hs', hm'⟩)
      · refine ⟨cs, ?_, ?_⟩
        · simp only [collectLoop]
          rw [if_pos hs, hd, hcs]
          show Except.ok (if d.month = month then ((x0 : Int), (y0 : Int)) :: cs else cs) = _
          rw [if_neg hdm]
        · intro p
          rw [hmem p]
          constructor
          · rintro ⟨y, x, hyx, hpe, d', hd', hs', hm'⟩
            exact ⟨y, x, List.mem_cons_of_mem _ hyx, hpe, d', hd', hs', hm'⟩
          · rintro ⟨y, x, hyx, hpe, d', hd', hs', hm'⟩
            rcases List.mem_cons.mp hyx with heq | hyx2
            · rw [Prod.mk.injEq] at heq
              obtain ⟨rfl, rfl⟩ := heq
              rw [hd] at hd'
              simp only [Option.some.injEq] at hd'
              rw [← hd'] at hm'
              exact absurd hm' hdm
            · exact ⟨y, x, hyx2, hpe, d', hd', hs', hm'⟩
    · refine ⟨cs, ?_, ?_⟩
      · simp only [collectLoop]
        rw [if_neg hs, hcs]
      · intro p
        rw [hmem p]
        constructor
        · rintro ⟨y, x, hyx, hpe, d', hd', hs', hm'⟩
          exact ⟨y, x, List.mem_cons_of_mem _ hyx, hpe, d', hd', hs', hm'⟩
        · rintro ⟨y, x, hyx, hpe, d', hd', hs', hm'⟩
          rcases List.mem_cons.mp hyx with heq | hyx2
          · rw [Prod.mk.injEq] at heq
            obtain ⟨rfl, rfl⟩ := heq
            exact absurd hs' hs
          · exact ⟨y, x, hyx2, hpe, d', hd', hs', hm'⟩

/-- Collecting over a grid whose cells agree with the raw data grid
yields exactly the coordinates of the dates of the target month. -/
theorem collect_dates_spec {dates : List Date} {data : List ℚ} {mg : Grid ℚ}
    (month : Int)
    (hval : ∀ d ∈ dates, ValidDate d) (hnd : dates.Nodup)
    (hlen : data.length = dates.length) (hne : dates ≠ [])
    (hLen : mg.length = (uniqueWeeksOf dates).length)
    (hRow : rowLen mg = 7)
    (hCell : ∀ y x : Nat, y < mg.length → x < rowLen mg →
      getCell mg y x = getCell (date_grid_raw dates data) y x) :
    ∃ cs, collectLoop (date_grid_raw dates dates) mg month (scanIndices mg) = .ok cs ∧
      ∀ p : Int × Int, (p ∈ cs ↔ ∃ d ∈ dates, d.month = month ∧
        p = ((dayIdx d : Int), ((weekRank dates d : Nat) : Int))) := by
  have hsome : ∀ yx ∈ scanIndices mg, (getCell mg yx.1 yx.2).isSome = true →
      ∃ d : Date, getEntry (date_grid_raw dates dates) yx.1 yx.2 = some (some d) := by
    rintro ⟨y, x⟩ hyx hsome
    obtain ⟨hy, hx⟩ := (mem_scanIndices mg y x).mp hyx
    rw [hCell y x hy hx] at hsome
    have hm := (isSome_raw_iff hval hnd hlen y x).mp hsome
    obtain ⟨d, hd, hpos⟩ := List.mem_map.mp hm
    have hij : (y, x) = (weekRank dates d, dayIdx d) := by rw [← hpos]; rfl
    rw [Prod.mk.injEq] at hij
    refine ⟨d, getEntry_of_getCell ?_⟩
    rw [hij.1, hij.2]
    exact (getCell_raw_self_iff hval hnd _ _ d).mpr ⟨d, hd, rfl, rfl, rfl⟩
  obtain ⟨cs, hcs, hmem⟩ := collectLoop_ok (date_grid_raw dates dates) mg month
    (scanIndices mg) hsome
  refine ⟨cs, hcs, ?_⟩
  intro p
  rw [hmem p]
  constructor
  · rintro ⟨y, x, hyx, hpe, d', hd', hs', hm'⟩
    have hcell := getCell_of_getEntry hd'
    obtain ⟨d, hd, rfl, hyw, hxd⟩ := (getCell_raw_self_iff hval hnd y x d').mp hcell
    exact ⟨d, hd, hm', by rw [hpe, hyw, hxd]⟩
  · rintro ⟨d, hd, hdm, rfl⟩
    have hy : weekRank dates d < mg.length := by
      rw [hLen]; exact weekRank_lt hd
    have hx : dayIdx d < rowLen mg := by
      rw [hRow]; exact dayIdx_lt d
    refine ⟨weekRank dates d, dayIdx d, (mem_scanIndices mg _ _).mpr ⟨hy, hx⟩, rfl, d, ?_, ?_, hdm⟩
    · exact getEntry_of_getCell
        ((getCell_raw_self_iff hval hnd _ _ d).mpr ⟨d, hd, rfl, rfl, rfl⟩)
    · rw [hCell _ _ hy hx]
      exact (isSome_raw_iff hval hnd hlen _ _).mpr
        (List.mem_map_of_mem (gridPos dates) hd)

theorem except_bind_ok {ε α β : Type} (a : α) (f : α → Except ε β) :
    ((Except.ok a : Except ε α) >>= f) = f a := rfl

theorem date_grid_self_ok {dates : List Date} (hne : dates ≠ []) :
    date_grid dates dates false = .ok (date_grid_raw dates dates) := by
  cases dates with
  | nil => exact absurd rfl hne
  | cons d ds =>
    unfold date_grid
    rw [if_pos rfl]
    rfl

/-- C8: when the target month occupies zero cells of a grid built by
`date_grid`, `get_month_outline` raises the index error of
`sorted_coords[:, 1]` on the empty (0,)-shaped coordinate array
instead of returning a polygon. -/
theorem C8_zero_cells_index_error (dates : List Date) (data : List ℚ) (flip : Bool)
    (month : Int) (g : Grid ℚ)
    (hval : ∀ d ∈ dates, ValidDate d) (hnd : dates.Nodup) (hne : dates ≠ [])
    (hg : date_grid dates data flip = .ok g)
    (hno : ∀ d ∈ dates, d.month ≠ month) :
    get_month_outline dates g flip month = .error .indexError := by
  obtain ⟨dataN, hlenN, rfl, -⟩ := date_grid_ok hg
  have hday := date_grid_self_ok hne
  have hrawlen : (date_grid_raw dates dataN).length = (uniqueWeeksOf dates).length :=
    length_date_grid_raw dates dataN
  have hrawrow : rowLen (date_grid_raw dates dataN) = 7 :=
    rowLen_date_grid_raw dataN hne
  cases flip with
  | false =>
    obtain ⟨cs, hcs, hmem⟩ := collect_dates_spec month hval hnd hlenN hne
      hrawlen hrawrow (fun i j hy hx => rfl)
    have hnil : cs = [] := by
      rw [List.eq_nil_iff_forall_not_mem]
      intro p hp
      obtain ⟨d, hd, hdm, -⟩ := (hmem p).mp hp
      exact hno d hd hdm
    rw [hnil] at hcs
    have hcore : outlineCore dates (date_grid_raw dates dataN) month =
        .error .indexError := by
      unfold outlineCore
      rw [hday, except_bind_ok, hcs, except_bind_ok]
    show (outlineCore dates (date_grid_raw dates dataN) month).map (fun cs => cs) =
      .error .indexError
    rw [hcore]
    rfl
  | true =>
    have hTlen : (gridTranspose (gridTranspose (date_grid_raw dates dataN))).length =
        (uniqueWeeksOf dates).length := by
      rw [length_gridTranspose,
        rowLen_gridTranspose _ (by rw [hrawrow]; omega), hrawlen]
    have hTrowpos : 0 < rowLen (gridTranspose (date_grid_raw dates dataN)) := by
      rw [rowLen_gridTranspose _ (by rw [hrawrow]; omega), hrawlen]
      exact uniqueWeeks_pos hne
    have hTrow : rowLen (gridTranspose (gridTranspose (date_grid_raw dates dataN))) = 7 := by
      rw [rowLen_gridTranspose _ hTrowpos, length_gridTranspose, hrawrow]
    obtain ⟨cs, hcs, hmem⟩ := collect_dates_spec month hval hnd hlenN hne
      hTlen hTrow (fun i j hy hx => by
        apply getCell_TT
        · rw [hTlen] at hy
          rw [← hrawlen] at hy
          exact hy
        · rw [hTrow] at hx
          rw [← hrawrow] at hx
          exact hx
        · rw [hrawrow]
          omega)
    have hnil : cs = [] := by
      rw [List.eq_nil_iff_forall_not_mem]
      intro p hp
      obtain ⟨d, hd, hdm, -⟩ := (hmem p).mp hp
      exact hno d hd hdm
    rw [hnil] at hcs
    have hcore : outlineCore dates
        (gridTranspose (gridTranspose (date_grid_raw dates dataN))) month =
        .error .indexError := by
      unfold outlineCore
      rw [hday, except_bind_ok, hcs, except_bind_ok]
    show (outlineCore dates
        (gridTranspose (gridTranspose (date_grid_raw dates dataN))) month).map
      (List.map (fun p => (p.2, p.1))) = .error .indexError
    rw [hcore]
    rfl

/-- Witness for C8: neither input date lies in month 5, so the tracer
fails. -/
theorem C8_zero_cells_index_error_witness :
    (∀ d ∈ wdates, ValidDate d) ∧ wdates.Nodup ∧ wdates ≠ [] ∧
    (date_grid wdates ([10, 20] : List ℚ) false =
      .ok [[some 10, none, none, none, none, none, none],
           [some 20, none, none, none, none, none, none]]) ∧
    (∀ d ∈ wdates, d.month ≠ 5) ∧
    get_month_outline wdates
      [[some 10, none, none, none, none, none, none],
       [some 20, none, none, none, none, none, none]] false 5 = .error .indexError :=
  ⟨by decide, by decide, by decide, by decide, by decide,
    C8_zero_cells_index_error wdates ([10, 20] : List ℚ) false 5 _
      (by decide) (by decide) (by decide) (by decide) (by decide)⟩

/-! ## A full calendar month (claim C7) -/

/-- All days of one calendar month, in order. -/
def monthDates (y m : Int) : List Date :=
  (List.range (daysInMonth y m).toNat).map (fun (i : Nat) => ⟨y, m, (i : Int) + 1⟩)

theorem daysInMonth_ge (y m : Int) (hm1 : 1 ≤ m) (hm2 : m ≤ 12) :
    28 ≤ daysInMonth y m := by
  unfold daysInMonth
  split_ifs <;> omega

theorem monthDates_valid (y m : Int) (hy : 1 ≤ y) (hm1 : 1 ≤ m) (hm2 : m ≤ 12) :
    ∀ d ∈ monthDates y m, ValidDate d := by
  intro d hd
  unfold monthDates at hd
  rw [List.mem_map] at hd
  obtain ⟨i, hi, rfl⟩ := hd
  rw [List.mem_range] at hi
  have h28 := daysInMonth_ge y m hm1 hm2
  unfold ValidDate
  dsimp only
  exact ⟨hy, hm1, hm2, by omega, by omega⟩

theorem monthDates_nodup (y m : Int) : (monthDates y m).Nodup := by
  unfold monthDates
  refine List.Nodup.map ?_ (List.nodup_range _)
  intro a b hab
  simp only [Date.mk.injEq] at hab
  omega

theorem monthDates_ne_nil (y m : Int) (hm1 : 1 ≤ m) (hm2 : m ≤ 12) :
    monthDates y m ≠ [] := by
  have h28 := daysInMonth_ge y m hm1 hm2
  have hlen : (monthDates y m).length = (daysInMonth y m).toNat := by
    unfold monthDates
    rw [List.length_map, List.length_range]
  intro hc
  rw [hc] at hlen
  simp only [List.length_nil] at hlen
  omega

theorem monthDates_month (y m : Int) : ∀ d ∈ monthDates y m, d.month = m := by
  intro d hd
  unfold monthDates at hd
  rw [List.mem_map] at hd
  obtain ⟨i, hi, rfl⟩ := hd
  rfl

/-- C7: for a date list covering a single full calendar month in
default orientation, the outline is a closed polygon (last point equal
to first) of 8 or 9 points whose bounding box spans columns 0 to 7 and
rows from the minimum occupied row to one past the maximum occupied
row of the month's cells. -/
theorem C7_full_month_outline (y m : Int) (hy : 1 ≤ y) (hm1 : 1 ≤ m) (hm2 : m ≤ 12)
    (data : List ℚ) (g : Grid ℚ)
    (hg : date_grid (monthDates y m) data false = .ok g) :
    ∃ coords, get_month_outline (monthDates y m) g false m = .ok coords ∧
      (coords.length = 8 ∨ coords.length = 9) ∧
      coords.head? = coords.getLast? ∧
      ∃ rmin rmax : Nat,
        npMin ((monthDates y m).map (weekRank (monthDates y m))) = .ok rmin ∧
        npMax ((monthDates y m).map (weekRank (monthDates y m))) = .ok rmax ∧
        (∀ p ∈ coords, 0 ≤ p.1 ∧ p.1 ≤ 7 ∧ (rmin : Int) ≤ p.2 ∧ p.2 ≤ (rmax : Int) + 1) ∧
        (∃ p ∈ coords, p.1 = 0) ∧ (∃ p ∈ coords, p.1 = 7) ∧
        (∃ p ∈ coords, p.2 = (rmin : Int)) ∧ (∃ p ∈ coords, p.2 = (rmax : Int) + 1) := by
  have hval := monthDates_valid y m hy hm1 hm2
  have hnd := monthDates_nodup y m
  have hne := monthDates_ne_nil y m hm1 hm2
  have hmonth := monthDates_month y m
  obtain ⟨dataN, hlenN, rfl, -⟩ := date_grid_ok hg
  have hday := date_grid_self_ok hne
  have hrawlen : (date_grid_raw (monthDates y m) dataN).length =
      (uniqueWeeksOf (monthDates y m)).length := length_date_grid_raw _ dataN
  have hrawrow : rowLen (date_grid_raw (monthDates y m) dataN) = 7 :=
    rowLen_date_grid_raw dataN hne
  obtain ⟨cs, hcs, hmem⟩ := collect_dates_spec m hval hnd hlenN hne hrawlen hrawrow
    (fun i j hi hj => rfl)
  have hd1 : (⟨y, m, 1⟩ : Date) ∈ monthDates y m := by
    unfold monthDates
    rw [List.mem_map]
    refine ⟨0, ?_, ?_⟩
    · rw [List.mem_range]
      have h28 := daysInMonth_ge y m hm1 hm2
      omega
    · show (⟨y, m, ((0 : Nat) : Int) + 1⟩ : Date) = _
      norm_num
  have hne_cs : cs ≠ [] := by
    intro hc
    have hin := (hmem ((dayIdx ⟨y, m, 1⟩ : Int),
        ((weekRank (monthDates y m) ⟨y, m, 1⟩ : Nat) : Int))).mpr
      ⟨⟨y, m, 1⟩, hd1, hmonth _ hd1, rfl⟩
    rw [hc] at hin
    exact List.not_mem_nil _ hin
  obtain ⟨c0, rest, rfl⟩ : ∃ c0 rest, cs = c0 :: rest := by
    cases cs with
    | nil => exact absurd rfl hne_cs
    | cons a b => exact ⟨a, b, rfl⟩
  have hRne : (monthDates y m).map (weekRank (monthDates y m)) ≠ [] := by
    intro hc
    have hl : ((monthDates y m).map (weekRank (monthDates y m))).length = 0 := by
      rw [hc]; rfl
    rw [List.length_map] at hl
    exact hne (List.length_eq_zero.mp hl)
  obtain ⟨rmin, hrmin⟩ := npMin_ok_of_ne_nil hRne
  obtain ⟨rmax, hrmax⟩ := npMax_ok_of_ne_nil hRne
  have hysmem : ∀ a : Int, (a ∈ (c0 :: rest).map Prod.snd ↔
      ∃ d ∈ monthDates y m, a = ((weekRank (monthDates y m) d : Nat) : Int)) := by
    intro a
    rw [List.mem_map]
    constructor
    · rintro ⟨p, hp, rfl⟩
      obtain ⟨d, hd, -, rfl⟩ := (hmem p).mp hp
      exact ⟨d, hd, rfl⟩
    · rintro ⟨d, hd, rfl⟩
      exact ⟨((dayIdx d : Int), ((weekRank (monthDates y m) d : Nat) : Int)),
        (hmem _).mpr ⟨d, hd, hmonth d hd, rfl⟩, rfl⟩
  have hysmin : npMin ((c0 :: rest).map Prod.snd) =
      .ok ((rest.map Prod.snd).foldl min c0.2) := rfl
  have hysmax : npMax ((c0 :: rest).map Prod.snd) =
      .ok ((rest.map Prod.snd).foldl max c0.2) := rfl
  have hminy : (rest.map Prod.snd).foldl min c0.2 = (rmin : Int) := by
    apply le_antisymm
    · obtain ⟨d, hd, hdr⟩ := List.mem_map.mp (npMin_mem hrmin)
      exact npMin_le hysmin _ ((hysmem _).mpr ⟨d, hd, by rw [hdr]⟩)
    · obtain ⟨d, hd, hdr⟩ := (hysmem _).mp (npMin_mem hysmin)
      have hrle : rmin ≤ weekRank (monthDates y m) d :=
        npMin_le hrmin _ (List.mem_map_of_mem _ hd)
      omega
  have hmaxy : (rest.map Prod.snd).foldl max c0.2 = (rmax : Int) := by
    apply le_antisymm
    · obtain ⟨d, hd, hdr⟩ := (hysmem _).mp (npMax_mem hysmax)
      have hrle : weekRank (monthDates y m) d ≤ rmax :=
        le_npMax hrmax _ (List.mem_map_of_mem _ hd)
      omega
    · obtain ⟨d, hd, hdr⟩ := List.mem_map.mp (npMax_mem hrmax)
      exact le_npMax hysmax _ ((hysmem _).mpr ⟨d, hd, by rw [hdr]⟩)
  have hrmm : rmin ≤ rmax := npMin_le hrmin _ (npMax_mem hrmax)
  have hcsb : ∀ p : Int × Int, p ∈ c0 :: rest →
      0 ≤ p.1 ∧ p.1 ≤ 6 ∧ (rmin : Int) ≤ p.2 ∧ p.2 ≤ (rmax : Int) := by
    intro p hp
    obtain ⟨d, hd, -, rfl⟩ := (hmem p).mp hp
    have h7 := dayIdx_lt d
    have hminle : rmin ≤ weekRank (monthDates y m) d :=
      npMin_le hrmin _ (List.mem_map_of_mem _ hd)
    have hmaxge : weekRank (monthDates y m) d ≤ rmax :=
      le_npMax hrmax _ (List.mem_map_of_mem _ hd)
    dsimp only
    omega
  have hc0b := hcsb c0 (List.mem_cons_self c0 rest)
  have hlastb := hcsb ((c0 :: rest).getLast (List.cons_ne_nil c0 rest))
    (List.getLast_mem (List.cons_ne_nil c0 rest))
  have hcore : outlineCore (monthDates y m) (date_grid_raw (monthDates y m) dataN) m =
      .ok (outlinePolygon c0 rest) := by
    unfold outlineCore
    rw [hday, except_bind_ok, hcs, except_bind_ok]
  have hpoly : outlinePolygon c0 rest =
      [c0,
       (7, (rest.map Prod.snd).foldl min c0.2),
       (7, (rest.map Prod.snd).foldl max c0.2),
       (if ((7 : Int), (rest.map Prod.snd).foldl max c0.2) =
           ((((c0 :: rest).getLast (List.cons_ne_nil c0 rest)).1 + 1,
             ((c0 :: rest).getLast (List.cons_ne_nil c0 rest)).2 + 1) : Int × Int)
        then ((((c0 :: rest).getLast (List.cons_ne_nil c0 rest)).1 + 1,
              ((c0 :: rest).getLast (List.cons_ne_nil c0 rest)).2 + 1) : Int × Int)
        else (((c0 :: rest).getLast (List.cons_ne_nil c0 rest)).1 + 1,
              ((c0 :: rest).getLast (List.cons_ne_nil c0 rest)).2 + 1 - 1)),
       ((((c0 :: rest).getLast (List.cons_ne_nil c0 rest)).1 + 1,
         ((c0 :: rest).getLast (List.cons_ne_nil c0 rest)).2 + 1) : Int × Int),
       (0, (rest.map Prod.snd).foldl max c0.2 + 1),
       (0, c0.2 + 1),
       (c0.1, c0.2 + 1),
       c0] := rfl
  refine ⟨outlinePolygon c0 rest, ?_, ?_, ?_, rmin, rmax, hrmin, hrmax, ?_, ?_, ?_, ?_, ?_⟩
  · show (outlineCore (monthDates y m) (date_grid_raw (monthDates y m) dataN) m).map
        (fun cs => cs) = _
    rw [hcore]
    rfl
  · right
    rw [hpoly]
    rfl
  · rw [hpoly]
    rfl
  · intro p hp
    rw [hpoly] at hp
    simp only [List.mem_cons, List.not_mem_nil, or_false] at hp
    rcases hp with rfl | rfl | rfl | rfl | rfl | rfl | rfl | rfl | rfl
    all_goals try split_ifs with hif
    all_goals try dsimp only
    all_goals omega
  · refine ⟨(0, (rest.map Prod.snd).foldl max c0.2 + 1), ?_, rfl⟩
    rw [hpoly]
    simp
  · refine ⟨(7, (rest.map Prod.snd).foldl min c0.2), ?_, rfl⟩
    rw [hpoly]
    simp
  · refine ⟨(7, (rest.map Prod.snd).foldl min c0.2), ?_, ?_⟩
    · rw [hpoly]
      simp
    · exact hminy
  · refine ⟨(0, (rest.map Prod.snd).foldl max c0.2 + 1), ?_, ?_⟩
    · rw [hpoly]
      simp
    · omega

/-- Witness for C7: all 30 days of April 2024 (which starts on a
Monday and spans ISO weeks 14-18). -/
theorem C7_full_month_outline_witness :
    ((1 : Int) ≤ 2024) ∧ ((1 : Int) ≤ 4) ∧ ((4 : Int) ≤ 12) ∧
    (date_grid (monthDates 2024 4) (List.replicate 30 (0 : ℚ)) false =
      .ok [[some 0, some 0, some 0, some 0, some 0, some 0, some 0],
           [some 0, some 0, some 0, some 0, some 0, some 0, some 0],
           [some 0, some 0, some 0, some 0, some 0, some 0, some 0],
           [some 0, some 0, some 0, some 0, some 0, some 0, some 0],
           [some 0, some 0, none, none, none, none, none]]) ∧
    (∃ coords, get_month_outline (monthDates 2024 4)
        [[some 0, some 0, some 0, some 0, some 0, some 0, some 0],
         [some 0, some 0, some 0, some 0, some 0, some 0, some 0],
         [some 0, some 0, some 0, some 0, some 0, some 0, some 0],
         [some 0, some 0, some 0, some 0, some 0, some 0, some 0],
         [some 0, some 0, none, none, none, none, none]] false 4 = .ok coords ∧
      (coords.length = 8 ∨ coords.length = 9) ∧
      coords.head? = coords.getLast? ∧
      ∃ rmin rmax : Nat,
        npMin ((monthDates 2024 4).map (weekRank (monthDates 2024 4))) = .ok rmin ∧
        npMax ((monthDates 2024 4).map (weekRank (monthDates 2024 4))) = .ok rmax ∧
        (∀ p ∈ coords, 0 ≤ p.1 ∧ p.1 ≤ 7 ∧ (rmin : Int) ≤ p.2 ∧ p.2 ≤ (rmax : Int) + 1) ∧
        (∃ p ∈ coords, p.1 = 0) ∧ (∃ p ∈ coords, p.1 = 7) ∧
        (∃ p ∈ coords, p.2 = (rmin : Int)) ∧ (∃ p ∈ coords, p.2 = (rmax : Int) + 1)) :=
  ⟨by decide, by decide, by decide, by decide,
    C7_full_month_outline 2024 4 (by decide) (by decide) (by decide)
      (List.replicate 30 (0 : ℚ)) _ (by decide)⟩

/-- C10: the outline computed with the flip flag set is exactly the
coordinate swap ((x, y) to (y, x)) of the outline computed unflipped on
the transposed month grid, errors included. -/
theorem C10_outline_flip_swap (dates : List Date) (month_grid : Grid ℚ) (month : Int) :
    get_month_outline dates month_grid true month =
      (get_month_outline dates (gridTranspose month_grid) false month).map
        (List.map (fun p => (p.2, p.1))) := by
  show (outlineCore dates (gridTranspose month_grid) month).map
      (fun cs => cs.map (fun p => (p.2, p.1))) =
    ((outlineCore dates (gridTranspose month_grid) month).map (fun cs => cs)).map
      (List.map (fun p => (p.2, p.1)))
  cases outlineCore dates (gridTranspose month_grid) month <;> rfl

/-- Witness for the amended C9. -/
theorem C9_amended_clim_witness :
    ((1 : ℚ) ≠ 0) ∧ ((7 : ℚ) ≠ 0) ∧
    (set_clim_args [[some 2, none], [none, some 5]] (some 1) (some 7) = (some 1, some 7) ∧
    set_clim_args [[some 2, none], [none, some 5]] none none =
      (nanmin [[some 2, none], [none, some 5]], nanmax [[some 2, none], [none, some 5]]) ∧
    set_clim_args [[some 2, none], [none, some 5]] (some 0) (some 0) =
      (nanmin [[some 2, none], [none, some 5]], nanmax [[some 2, none], [none, some 5]]) ∧
    (∀ v : ℚ, nanmin [[some 2, none], [none, some 5]] = some v →
      (∃ row ∈ ([[some 2, none], [none, some 5]] : Grid ℚ), some v ∈ row) ∧
        ∀ row ∈ ([[some 2, none], [none, some 5]] : Grid ℚ), ∀ w : ℚ,
          some w ∈ row → v ≤ w) ∧
    (∀ v : ℚ, nanmax [[some 2, none], [none, some 5]] = some v →
      (∃ row ∈ ([[some 2, none], [none, some 5]] : Grid ℚ), some v ∈ row) ∧
        ∀ row ∈ ([[some 2, none], [none, some 5]] : Grid ℚ), ∀ w : ℚ,
          some w ∈ row → w ≤ v)) :=
  ⟨by decide, by decide, C9_amended_clim _ 1 7 (by decide) (by decide)⟩

end July
